import Mathlib

/-!
# Verification of the buildah image build agent

A shallow embedding of `src/builder.go` and `src/main.go`.

* Go strings are modelled as lists of characters (`GoString`).  Every string
  operation the program performs uses ASCII delimiters only, so lengths and
  indices are counted in list positions.
* Go's `map[string]string` is modelled as a function into `Option`, so that a
  key bound to the empty string is distinguished from an absent key.
* Operations that can panic at run time (slice and index expressions) return
  `Option`, with `none` standing for the panic.
* External effects (the command runner, the clock, the working directory, the
  JSON decoder) are parameters of the model.
-/

set_option autoImplicit false

namespace Buildah

/-! ## Strings -/

/-- Go `string`. -/
abbrev GoString := List Char

/-- Go `error`: `none` is `nil`, `some msg` is an error whose text is `msg`. -/
abbrev GoError := Option GoString

/-- Go `strings.HasPrefix`. -/
def HasPrefix (s pre : GoString) : Bool :=
  pre.isPrefixOf s

/-- Go `strings.HasSuffix`. -/
def HasSuffix (s suf : GoString) : Bool :=
  suf.isSuffixOf s

/-- Go `strings.TrimSuffix`: `s` without the trailing `suf`, when it has one. -/
def TrimSuffix (s suf : GoString) : GoString :=
  if HasSuffix s suf then s.take (s.length - suf.length) else s

/-- Scan for the first position at which `sub` occurs; `i` is the position of
the head of the remaining input. -/
def IndexFrom (sub : GoString) : GoString → Nat → Int
  | [], i => if sub = [] then (i : Int) else -1
  | c :: cs, i => if sub.isPrefixOf (c :: cs) then (i : Int) else IndexFrom sub cs (i + 1)

/-- Go `strings.Index`: position of the first occurrence of `sub`, or `-1`. -/
def Index (s sub : GoString) : Int :=
  IndexFrom sub s 0

/-- Scan for the last position at which `sub` occurs; `best` is the last
occurrence seen so far. -/
def LastIndexFrom (sub : GoString) : GoString → Nat → Int → Int
  | [], i, best => if sub = [] then (i : Int) else best
  | c :: cs, i, best =>
    LastIndexFrom sub cs (i + 1) (if sub.isPrefixOf (c :: cs) then (i : Int) else best)

/-- Go `strings.LastIndex`: position of the last occurrence of `sub`, or `-1`. -/
def LastIndex (s sub : GoString) : Int :=
  LastIndexFrom sub s 0 (-1)

/-- The loop of Go's `genSplit`: cut at the first separator, continue on the
rest.  `n` bounds the number of cuts, as the slice capacity does in Go. -/
def splitLoop (sep : GoString) : Nat → GoString → List GoString
  | 0, s => [s]
  | n + 1, s =>
    let m := Index s sep
    if m < 0 then [s]
    else s.take m.toNat :: splitLoop sep n (s.drop (m.toNat + sep.length))

/-- Go `strings.Split` for a non-empty separator.  A string of length `l`
holds at most `l` separators, so `l` cuts suffice. -/
def Split (s sep : GoString) : List GoString :=
  splitLoop sep s.length s

/-- Go `strings.Join`. -/
def Join (elems : List GoString) (sep : GoString) : GoString :=
  sep.intercalate elems

/-- Go `strings.ToLower`, on the ASCII letters.  The only use compares the
result with `"true"`, and no non-ASCII character lowers to an ASCII letter of
that word. -/
def ToLower (s : GoString) : GoString :=
  s.map Char.toLower

/-- Go slice expression `s[lo:]`; `none` is the out-of-range panic. -/
def sliceFrom (s : GoString) (lo : Int) : Option GoString :=
  if 0 ≤ lo ∧ lo ≤ (s.length : Int) then some (s.drop lo.toNat) else none

/-- Go slice expression `s[lo:hi]`; `none` is the out-of-range panic. -/
def slice (s : GoString) (lo hi : Int) : Option GoString :=
  if 0 ≤ lo ∧ lo ≤ hi ∧ hi ≤ (s.length : Int) then
    some ((s.take hi.toNat).drop lo.toNat)
  else none

/-! ## Maps -/

/-- Go `map[string]string`. -/
abbrev Env := GoString → Option GoString

/-- The empty map, `make(map[string]string)`. -/
def Env.empty : Env :=
  fun _ => none

/-- Map assignment `m[k] = v`. -/
def Env.set (m : Env) (k v : GoString) : Env :=
  fun k' => if k' = k then some v else m k'

/-- Map read `m[k]`: the zero value `""` when the key is absent. -/
def Env.get (m : Env) (k : GoString) : GoString :=
  (m k).getD []

/-- The map holding exactly the listed bindings; an earlier binding of a key
shadows a later one. -/
def Env.ofList : List (String × String) → Env
  | [] => Env.empty
  | (k, v) :: rest => fun k' => if k' = k.toList then some v.toList else Env.ofList rest k'

/-! ## The builder -/

/-- Constant `baseSpace`. -/
def baseSpace : GoString := "/root/src".toList

/-- Struct `Builder`. -/
structure Builder where
  GitCloneURL : GoString := []
  GitRef : GoString := []
  GitType : GoString := []
  Image : GoString := []
  ImageTagFormat : GoString := []
  ImageTag : GoString := []
  ExtraImageTag : GoString := []
  BuildWorkdir : GoString := []
  DockerFilePath : GoString := []
  BuildArgs : GoString := []
  NoCache : Bool := false
  HubUser : GoString := []
  HubToken : GoString := []
  hub : GoString := []
  gitCommit : GoString := []
  gitTag : GoString := []
  gitCommitTime : GoString := []
  projectName : GoString := []
  envs : Env := Env.empty

/-- What a call of `NewBuilder` can come to. -/
inductive Built where
  | ok (b : Builder)
  | error (msg : GoString)
  | panic

/-- Function `NewBuilder`. -/
def NewBuilder (envs : Env) : Built :=
  let b : Builder := {}
  if envs.get "GIT_CLONE_URL".toList ≠ [] then
    let b := { b with
      GitCloneURL := envs.get "GIT_CLONE_URL".toList
      GitRef := envs.get "GIT_REF".toList
      GitType := envs.get "GIT_TYPE".toList }
    let b := if b.GitRef = [] then
        { b with GitRef := "master".toList, GitType := "branch".toList }
      else b
    if envs.get "IMAGE".toList = [] then
      .error "envionment variable IMAGE is required".toList
    else
      let b := { b with
        HubUser := envs.get "HUB_USER".toList
        HubToken := envs.get "HUB_TOKEN".toList }
      if b.HubUser = [] ∨ b.HubToken = [] then
        .error "envionment variable HUB_USER, HUB_TOKEN are required".toList
      else
        let split : Option Builder :=
          if Index (envs.get "IMAGE".toList) ":".toList > -1 then
            let imageAndTag := Split (envs.get "IMAGE".toList) ":".toList
            match imageAndTag[0]?, imageAndTag[1]? with
            | some image, some tag => some { b with Image := image, ImageTag := tag }
            | _, _ => none
          else some { b with Image := envs.get "IMAGE".toList }
        match split with
        | none => .panic
        | some b =>
          let b := if Index b.Image ".".toList > -1 then { b with hub := b.Image }
            else { b with hub := "docker.io".toList }
          let b := if envs.get "IMAGE_TAG".toList ≠ [] then
              { b with ImageTag := envs.get "IMAGE_TAG".toList }
            else { b with ImageTag := "latest".toList }
          let s := TrimSuffix (TrimSuffix b.GitCloneURL "/".toList) ".git".toList
          match sliceFrom s (LastIndex s "/".toList + 1) with
          | none => .panic
          | some name =>
            let b := { b with
              projectName := name
              DockerFilePath := envs.get "DOCKERFILE_PATH".toList
              BuildArgs := envs.get "BUILD_ARGS".toList }
            let b := if ToLower (envs.get "NO_CACHE".toList) = "true".toList then
                { b with NoCache := true }
              else b
            .ok { b with envs := envs }
  else
    .error "envionment variable GIT_CLONE_URL is required".toList

/-! ## The process runner -/

/-- Struct `CMD`. -/
structure CMD where
  Command : List GoString
  WorkDir : GoString := []
  deriving DecidableEq

/-- What `cmd.CombinedOutput()` gives back: the captured text and the error. -/
structure ExecResult where
  output : GoString
  err : GoError

/-- Everything outside the program.  The outcome of an external command and
the reading of the clock may depend on the commands run before
(`List CMD`, oldest first). -/
structure World where
  /-- Call `os.Chdir(dir)`. -/
  chdir : GoString → GoError
  /-- Call `os.Getwd()`; the caller drops its error. -/
  getwd : GoString
  /-- Call `time.Now().Format("2006-01-02 15:04:05")`. -/
  now : List CMD → GoString
  /-- Running the command to completion. -/
  exec : List CMD → CMD → ExecResult
  /-- Call `json.Unmarshal` into a `map[string]string`: the decoding error, or
  the entries of the decoded map in the order `range` visits them. -/
  unmarshal : GoString → Except GoString (List (GoString × GoString))

/-- One write to standard output, tagged by where it comes from. -/
inductive Line where
  /-- The `Run CMD` trace line of the process runner. -/
  | trace (text : GoString)
  /-- The captured output of an external command. -/
  | output (text : GoString)
  /-- A progress or failure message of the pipeline. -/
  | message (text : GoString)
  deriving DecidableEq

/-- The observable history of the process: the external commands started so
far, each with the error it ended with, and the writes to standard output. -/
structure Proc where
  runs : List (CMD × GoError) := []
  stdout : List Line := []

/-- The commands started so far, oldest first. -/
def Proc.history (st : Proc) : List CMD :=
  st.runs.map Prod.fst

/-- Append one write to standard output. -/
def Proc.print (st : Proc) (l : Line) : Proc :=
  { st with stdout := st.stdout ++ [l] }

/-- Go `fmt.Println`: the operands separated by spaces, then a newline. -/
def Println (operands : List GoString) : GoString :=
  Join operands " ".toList ++ "\n".toList

/-- The text written by `CMD.Run` before it starts the command. -/
def CMD.traceText (c : CMD) (time : GoString) : GoString :=
  "[".toList ++ time ++ "] Run CMD: ".toList ++ Join c.Command " ".toList ++ "\n".toList

/-- Method `CMD.Run`.  `none` is the panic of `c.Command[0]` on an empty
command. -/
def CMD.Run (c : CMD) (w : World) (st : Proc) : Option ((GoString × GoError) × Proc) :=
  let st := st.print (.trace (c.traceText (w.now st.history)))
  match c.Command with
  | [] => none
  | _ :: _ =>
    let r := w.exec st.history c
    let st := { st with runs := st.runs ++ [(c, r.err)] }
    let st := if r.output.length > 0 then st.print (.output (Println [r.output])) else st
    some ((r.output, r.err), st)

/-! ## Paths -/

/-- One path element of `filepath.Clean`; `stack` holds the elements kept so
far, innermost first. -/
def cleanElem (rooted : Bool) (stack : List GoString) (e : GoString) : List GoString :=
  if e = [] ∨ e = ".".toList then stack
  else if e = "..".toList then
    match stack with
    | [] => if rooted then [] else [e]
    | top :: rest => if top = "..".toList then e :: stack else rest
  else e :: stack

/-- Go `filepath.Clean` for slash-separated paths. -/
def filepathClean (path : GoString) : GoString :=
  let rooted := HasPrefix path "/".toList
  let kept := ((Split path "/".toList).foldl (cleanElem rooted) []).reverse
  let out := (if rooted then "/".toList else []) ++ Join kept "/".toList
  if out = [] then ".".toList else out

/-- Go `filepath.Join`: the elements from the first non-empty one on, joined
by slashes and cleaned; `""` when there is none. -/
def filepathJoin (elem : List GoString) : GoString :=
  match elem.dropWhile (fun e => e = []) with
  | [] => []
  | rest => filepathClean (Join rest "/".toList)

/-! ## The pipeline -/

/-- A pipeline step: it returns the step's `error` and the new history, or
`none` when it panics. -/
abbrev Step := World → Proc → Option (GoError × Proc)

/-- The command of `gitPull`. -/
def gitPullCommand (b : Builder) : CMD :=
  { Command := ["git".toList, "clone".toList, "--recurse-submodules".toList,
      b.GitCloneURL, b.projectName] }

/-- Method `Builder.gitPull`. -/
def Builder.gitPull (b : Builder) : Step := fun w st =>
  match (gitPullCommand b).Run w st with
  | none => none
  | some ((_, some err), st) =>
    some (some err, st.print (.message (Println ["Clone project failed:".toList, err])))
  | some ((_, none), st) =>
    some (none, st.print (.message
      (Println ["Clone project".toList, b.GitCloneURL, "succeed.".toList])))

/-- The command of `gitReset`, given the result `cwd` of `os.Getwd()`. -/
def gitResetCommand (b : Builder) (cwd : GoString) : CMD :=
  { Command := ["git".toList, "checkout".toList, b.GitRef, "--".toList]
    WorkDir := filepathJoin [cwd, b.projectName] }

/-- Method `Builder.gitReset`. -/
def Builder.gitReset (b : Builder) : Step := fun w st =>
  let cwd := w.getwd
  match (gitResetCommand b cwd).Run w st with
  | none => none
  | some ((_, some err), st) =>
    some (some err, st.print (.message
      (Println ["Switch to git ref ".toList, b.GitRef, "failed:".toList, err])))
  | some ((_, none), st) =>
    some (none, st.print (.message
      (Println ["Switch to".toList, b.GitRef, "succeed.".toList])))

/-- The command of `loginRegistry`. -/
def loginCommand (b : Builder) : CMD :=
  { Command := ["docker".toList, "login".toList, b.hub, "--username".toList, b.HubUser,
      "--password".toList, b.HubToken] }

/-- Method `Builder.loginRegistry`. -/
def Builder.loginRegistry (b : Builder) : Step := fun w st =>
  match (loginCommand b).Run w st with
  | none => none
  | some ((_, some err), st) =>
    some (some err, st.print (.message (Println ["docker login failed:".toList, err])))
  | some ((_, none), st) =>
    some (none, st.print (.message (Println ["docker login succ.".toList])))

/-- The `for k, v := range args` loop of `build`: it appends one `--build-arg`
pair per entry to `command`.  `none` is the panic of the slice expression. -/
def buildArgsLoop (envs : Env) : List (GoString × GoString) → List GoString →
    Option (List GoString)
  | [], command => some command
  | (k, v) :: rest, command =>
    if HasPrefix v "$\x7b".toList && HasSuffix v "\x7d".toList then
      match slice v 2 ((v.length : Int) - 1) with
      | none => none
      | some envKey =>
        match envs envKey with
        | some envValue =>
          buildArgsLoop envs rest
            (command ++ ["--build-arg".toList, k ++ "=".toList ++ envValue])
        | none =>
          buildArgsLoop envs rest (command ++ ["--build-arg".toList, k ++ "=".toList ++ v])
    else
      buildArgsLoop envs rest (command ++ ["--build-arg".toList, k ++ "=".toList ++ v])

/-- The options `build` puts before the build arguments. -/
def buildOptions (b : Builder) (imageURL : GoString) : List GoString :=
  let dockerfilePath := b.projectName ++ b.DockerFilePath
  let command := ["buildah".toList, "bud".toList]
  let command := if dockerfilePath ≠ [] then command ++ ["-f".toList, dockerfilePath]
    else command
  let command := if b.NoCache then command ++ ["--no-cache".toList] else command
  command ++ ["-t".toList, imageURL]

/-- Method `Builder.build`. -/
def Builder.build (b : Builder) (imageURL : GoString) : Step := fun w st =>
  let command := buildOptions b imageURL
  let args : Option (List GoString × Proc) :=
    if b.BuildArgs ≠ [] then
      match w.unmarshal b.BuildArgs with
      | .error err =>
        some (command, st.print (.message (Println ["Unmarshal BUILD_ARG error: ".toList, err])))
      | .ok args =>
        match buildArgsLoop b.envs args command with
        | none => none
        | some command => some (command, st)
    else some (command, st)
  match args with
  | none => none
  | some (command, st) =>
    let command := command ++ [".".toList]
    match ({ Command := command } : CMD).Run w st with
    | none => none
    | some ((_, some err), st) =>
      some (some err, st.print (.message (Println ["Run docker build failed:".toList, err])))
    | some ((_, none), st) =>
      some (none, st.print (.message (Println ["Run docker build succeed.".toList])))

/-- The command of `push`. -/
def pushCommand (imageURL : GoString) : CMD :=
  { Command := ["buildah".toList, "push".toList, imageURL] }

/-- Method `Builder.push`. -/
def Builder.push (_b : Builder) (imageURL : GoString) : Step := fun w st =>
  match (pushCommand imageURL).Run w st with
  | none => none
  | some ((_, some err), st) =>
    some (some err, st.print (.message (Println ["Run docker push failed:".toList, err])))
  | some ((_, none), st) =>
    some (none, st.print (.message (Println ["Run docker push succeed.".toList])))

/-- The image reference `run` builds and pushes, `fmt.Sprintf("%s:%s", ...)`. -/
def Builder.imageURL (b : Builder) : GoString :=
  b.Image ++ ":".toList ++ b.ImageTag

/-- Method `Builder.run`. -/
def Builder.run (b : Builder) : Step := fun w st =>
  match w.chdir baseSpace with
  | some err =>
    some (some ("Chdir to baseSpace(".toList ++ baseSpace ++ ") failed:".toList ++ err), st)
  | none =>
    match b.gitPull w st with
    | none => none
    | some (some err, st) => some (some err, st)
    | some (none, st) =>
      match b.gitReset w st with
      | none => none
      | some (some err, st) => some (some err, st)
      | some (none, st) =>
        match b.loginRegistry w st with
        | none => none
        | some (some err, st) => some (some err, st)
        | some (none, st) =>
          let imageURL := b.imageURL
          match b.build imageURL w st with
          | none => none
          | some (some err, st) => some (some err, st)
          | some (none, st) =>
            match b.push imageURL w st with
            | none => none
            | some (some err, st) => some (some err, st)
            | some (none, st) => some (none, st)

/-! ## The program -/

/-- Variable `envList`. -/
def envList : List GoString :=
  ["GIT_CLONE_URL".toList, "GIT_REF".toList, "GIT_TYPE".toList, "IMAGE".toList,
   "IMAGE_TAG".toList, "BUILD_WORKDIR".toList, "DOCKERFILE_PATH".toList, "NO_CACHE".toList,
   "HUB_USER".toList, "HUB_TOKEN".toList]

/-- The input mapping `main` builds: every name of `envList` bound to what
`os.Getenv` returns for it (`""` for an unset variable). -/
def mainEnvs (getenv : GoString → GoString) : Env :=
  envList.foldl (fun envs envName => envs.set envName (getenv envName)) Env.empty

/-- Function `main`: the exit status and the history of the process, or `none`
when it panics. -/
def main (getenv : GoString → GoString) (w : World) : Option (Nat × Proc) :=
  let st : Proc := {}
  match NewBuilder (mainEnvs getenv) with
  | .panic => none
  | .error err =>
    some (1, st.print (.message (Println ["BUILDER FAILED: ".toList, err])))
  | .ok builder =>
    match builder.run w st with
    | none => none
    | some (some err, st) =>
      some (1, st.print (.message (Println ["BUILD FAILED: ".toList, err])))
    | some (none, st) =>
      some (0, st.print (.message (Println ["BUILD SUCCEED".toList])))

/-! ## Closed forms, proved equal to the code below -/

/-- The text after the last `c` of `s`; all of `s` when `c` does not occur. -/
def afterLast (c : Char) : GoString → GoString
  | [] => []
  | d :: cs => if c ∈ cs then afterLast c cs else if d = c then cs else d :: cs

/-- The part of `IMAGE` that `NewBuilder` keeps as `Image`. -/
def imageOf (image : GoString) : GoString :=
  if Index image ":".toList > -1 then image.takeWhile (fun d => d != ':') else image

/-- The `Builder` that `NewBuilder` returns when it returns one
(`NewBuilder_eq`). -/
def resolved (envs : Env) : Builder where
  GitCloneURL := envs.get "GIT_CLONE_URL".toList
  GitRef := if envs.get "GIT_REF".toList = [] then "master".toList else envs.get "GIT_REF".toList
  GitType :=
    if envs.get "GIT_REF".toList = [] then "branch".toList else envs.get "GIT_TYPE".toList
  Image := imageOf (envs.get "IMAGE".toList)
  ImageTag :=
    if envs.get "IMAGE_TAG".toList ≠ [] then envs.get "IMAGE_TAG".toList else "latest".toList
  DockerFilePath := envs.get "DOCKERFILE_PATH".toList
  BuildArgs := envs.get "BUILD_ARGS".toList
  NoCache := decide (ToLower (envs.get "NO_CACHE".toList) = "true".toList)
  HubUser := envs.get "HUB_USER".toList
  HubToken := envs.get "HUB_TOKEN".toList
  hub :=
    if Index (imageOf (envs.get "IMAGE".toList)) ".".toList > -1 then
      imageOf (envs.get "IMAGE".toList)
    else "docker.io".toList
  projectName :=
    afterLast '/' (TrimSuffix (TrimSuffix (envs.get "GIT_CLONE_URL".toList) "/".toList)
      ".git".toList)
  envs := envs

/-- The resolution of one build-argument value, in the words of the
specification: a value of the shape `${NAME}` whose `NAME` is a key of the
input mapping stands for the value of that key, and every other value stands
for itself. -/
def resolveSpec (envs : Env) (v : GoString) : GoString :=
  if v.take 2 = "$\x7b".toList ∧ (v.drop 2).getLast? = some '\x7d' then
    (envs (v.drop 2).dropLast).getD v
  else v

/-- The `--build-arg` pairs of the specification, one per entry, in the order
of the entries. -/
def buildArgsSpec (envs : Env) (args : List (GoString × GoString)) : List GoString :=
  args.flatMap (fun kv => ["--build-arg".toList, kv.1 ++ "=".toList ++ resolveSpec envs kv.2])

/-- The command `build` runs, in closed form (`build_runs`). -/
def buildCommandSpec (b : Builder) (imageURL : GoString) (w : World) : CMD where
  Command :=
    buildOptions b imageURL ++
      (if b.BuildArgs ≠ [] then
        match w.unmarshal b.BuildArgs with
        | .ok args => buildArgsSpec b.envs args
        | .error _ => []
      else []) ++ [".".toList]

/-- The five commands of the pipeline, in the order `run` issues them: clone,
checkout, registry login, image build, image push. -/
def pipeline (b : Builder) (w : World) : List CMD :=
  [gitPullCommand b, gitResetCommand b w.getwd, loginCommand b,
   buildCommandSpec b b.imageURL w, pushCommand b.imageURL]

/-- The trace lines among the writes to standard output. -/
def Proc.traces (st : Proc) : List GoString :=
  st.stdout.filterMap (fun l => match l with | .trace text => some text | _ => none)

/-- Steps in sequence: the first error ends the sequence and is returned. -/
def seqSteps : List Step → Step
  | [], _, st => some (none, st)
  | s :: rest, w, st =>
    match s w st with
    | none => none
    | some (some err, st) => some (some err, st)
    | some (none, st) => seqSteps rest w st

/-- The commands started, each with its error, when the commands of a list are
run one after the other until one fails; `hist` holds the commands run before. -/
def runUntilFail (w : World) : List CMD → List CMD → List (CMD × GoError)
  | [], _ => []
  | c :: cs, hist =>
    (c, (w.exec hist c).err) ::
      (match (w.exec hist c).err with
       | none => runUntilFail w cs (hist ++ [c])
       | some _ => [])

/-- The trace lines written when the listed commands are run after `hist`. -/
def tracesOf (w : World) : List CMD → List CMD → List GoString
  | [], _ => []
  | c :: cs, hist => c.traceText (w.now hist) :: tracesOf w cs (hist ++ [c])

/-- The step runs exactly the command `c` and returns its error. -/
def Runs (s : Step) (c : CMD) (w : World) : Prop :=
  ∀ st, ∃ st2, s w st = some ((w.exec st.history c).err, st2) ∧
    st2.runs = st.runs ++ [(c, (w.exec st.history c).err)] ∧
    st2.traces = st.traces ++ [c.traceText (w.now st.history)]

/-! ## Concrete inputs used by the closed statements below -/

/-- The fields of a built `Builder`, for inspection (`none` on error or panic). -/
def Built.toOption : Built → Option Builder
  | .ok b => some b
  | _ => none

/-- A world in which every external call succeeds silently at a fixed time. -/
def quietWorld : World where
  chdir := fun _ => none
  getwd := baseSpace
  now := fun _ => "2024-01-01 00:00:00".toList
  exec := fun _ _ => { output := [], err := none }
  unmarshal := fun _ => .error "unexpected end of JSON input".toList

/-- An input whose `IMAGE` carries the tag `v2` and that sets no `IMAGE_TAG`. -/
def envTagInImage : Env := Env.ofList
  [("GIT_CLONE_URL", "https://example.com/org/app.git"),
   ("IMAGE", "registry.example.com/app:v2"),
   ("HUB_USER", "user"), ("HUB_TOKEN", "secret")]

/-- An input whose `IMAGE` starts with the colon. -/
def envColonFirst : Env := Env.ofList
  [("GIT_CLONE_URL", "https://example.com/org/app.git"),
   ("IMAGE", ":v1"),
   ("HUB_USER", "user"), ("HUB_TOKEN", "secret")]

/-- An input whose clone URL has the form `p/name/` with `name = app.git`. -/
def envDotGitSlash : Env := Env.ofList
  [("GIT_CLONE_URL", "https://example.com/org/app.git/"),
   ("IMAGE", "app"),
   ("HUB_USER", "user"), ("HUB_TOKEN", "secret")]

/-- An input whose clone URL is non-empty and has an empty last segment. -/
def envNoName : Env := Env.ofList
  [("GIT_CLONE_URL", "https://example.com/.git"),
   ("IMAGE", "app"),
   ("HUB_USER", "user"), ("HUB_TOKEN", "secret")]

/-- The scenario of the specification, with the credentials left open. -/
def envScenario (user token : GoString) : Env :=
  ((((Env.empty.set "GIT_CLONE_URL".toList "https://example.com/org/app.git".toList).set
    "IMAGE".toList "registry.example.com/app".toList).set
    "IMAGE_TAG".toList "v1".toList).set
    "HUB_USER".toList user).set
    "HUB_TOKEN".toList token

/-- An input whose project name is the text `--build-arg` and whose
`BUILD_ARGS` is no JSON object. -/
def envDashName : Env := Env.ofList
  [("GIT_CLONE_URL", "https://example.com/org/--build-arg"),
   ("IMAGE", "app"), ("BUILD_ARGS", "\x7b"),
   ("HUB_USER", "user"), ("HUB_TOKEN", "secret")]

/-- The `Builder` of the scenario with the credentials `user` and `secret`. -/
def scenarioBuilder : Builder :=
  resolved (envScenario "user".toList "secret".toList)

/-- A JSON text with two build arguments, `A` bound to `${FOO}` and `B` bound
to `${BAR}`. -/
def argsText : GoString :=
  "\x7b\"A\":\"$\x7bFOO\x7d\",\"B\":\"$\x7bBAR\x7d\"\x7d".toList

/-- The quiet world, in which `argsText` decodes to its two entries. -/
def argsWorld : World :=
  { quietWorld with
    unmarshal := fun text =>
      if text = argsText then
        .ok [("A".toList, "$\x7bFOO\x7d".toList), ("B".toList, "$\x7bBAR\x7d".toList)]
      else .error "invalid character".toList }

/-- The scenario `Builder` with the build arguments `argsText` and an input
mapping that binds `FOO` to `bar` and does not bind `BAR`. -/
def argsBuilder : Builder :=
  { scenarioBuilder with BuildArgs := argsText, envs := Env.ofList [("FOO", "bar")] }

/-- The scenario `Builder` with another registry token. -/
def otherTokenBuilder : Builder :=
  { scenarioBuilder with HubToken := "other".toList }

/-- The directory an external command runs in: `CMD.Run` sets `cmd.Dir` only
for a non-empty `WorkDir`, and a command without `Dir` runs in the working
directory `cwd` of the process. -/
def CMD.dir (c : CMD) (cwd : GoString) : GoString :=
  if c.WorkDir ≠ [] then c.WorkDir else cwd

/-- The directory denoted by the last argument of a command, a relative path
(the build context of `buildah bud`), resolved against the directory the
command runs in. -/
def CMD.contextDir (c : CMD) (cwd : GoString) : GoString :=
  filepathJoin [c.dir cwd, c.Command.getLast?.getD []]

/-- The checked-out directory: the working root `cwd` joined with the project
name, as `gitReset` computes it. -/
def checkoutDir (b : Builder) (cwd : GoString) : GoString :=
  filepathJoin [cwd, b.projectName]

/-- A process environment that sets the required variables and `BUILD_ARGS`. -/
def getenvWithArgs : GoString → GoString := fun name =>
  (Env.ofList
    [("GIT_CLONE_URL", "https://example.com/org/app.git"),
     ("IMAGE", "app"),
     ("BUILD_ARGS", "\x7b\"A\":\"$\x7bFOO\x7d\",\"B\":\"$\x7bBAR\x7d\"\x7d"),
     ("HUB_USER", "user"), ("HUB_TOKEN", "secret")]).get name

/-- An input with the revision `v1.0` of kind `kind` and the build arguments
`buildArgs`. -/
def envKind (kind buildArgs : String) : Env := Env.ofList
  [("GIT_CLONE_URL", "https://example.com/org/app.git"),
   ("GIT_REF", "v1.0"), ("GIT_TYPE", kind),
   ("IMAGE", "app"), ("BUILD_ARGS", buildArgs),
   ("HUB_USER", "user"), ("HUB_TOKEN", "secret")]

/-- A JSON text with one build argument, `KIND` bound to `${GIT_TYPE}`. -/
def kindText : String :=
  "\x7b\"KIND\":\"$\x7bGIT_TYPE\x7d\"\x7d"

/-- The quiet world, in which `kindText` decodes to its one entry. -/
def kindWorld : World :=
  { quietWorld with
    unmarshal := fun text =>
      if text = kindText.toList then .ok [("KIND".toList, "$\x7bGIT_TYPE\x7d".toList)]
      else .error "invalid character".toList }

/-- An input with the registry token `token` and the build arguments
`buildArgs`. -/
def envToken (token buildArgs : String) : Env := Env.ofList
  [("GIT_CLONE_URL", "https://example.com/org/app.git"),
   ("IMAGE", "app"), ("BUILD_ARGS", buildArgs),
   ("HUB_USER", "user"), ("HUB_TOKEN", token)]

/-- A JSON text with one build argument, `T` bound to `${HUB_TOKEN}`. -/
def tokenText : String :=
  "\x7b\"T\":\"$\x7bHUB_TOKEN\x7d\"\x7d"

/-- The quiet world, in which `tokenText` decodes to its one entry. -/
def tokenWorld : World :=
  { quietWorld with
    unmarshal := fun text =>
      if text = tokenText.toList then .ok [("T".toList, "$\x7bHUB_TOKEN\x7d".toList)]
      else .error "invalid character".toList }

/-- A key is absent from the map or bound to the empty string. -/
def Env.missing (envs : Env) (k : GoString) : Prop :=
  envs k = none ∨ envs k = some []

end Buildah

namespace Buildah

/-! ## Facts about the string operations -/

theorem isPrefixOf_single (c d : Char) (cs : GoString) :
    List.isPrefixOf [c] (d :: cs) = (c == d) := by
  simp [List.isPrefixOf]

theorem IndexFrom_single_of_not_mem (c : Char) :
    ∀ (s : GoString) (i : Nat), c ∉ s → IndexFrom [c] s i = -1
  | [], _, _ => by simp [IndexFrom]
  | d :: cs, i, h => by
    have hd : c ≠ d := fun e => h (by simp [e])
    have hcs : c ∉ cs := fun e => h (List.mem_cons_of_mem _ e)
    simp [IndexFrom, isPrefixOf_single, hd, IndexFrom_single_of_not_mem c cs (i + 1) hcs]

theorem IndexFrom_single_of_mem (c : Char) :
    ∀ (s : GoString) (i : Nat), c ∈ s →
      IndexFrom [c] s i = ((i + (s.takeWhile (fun d => d != c)).length : Nat) : Int)
  | [], _, h => by simp at h
  | d :: cs, i, h => by
    by_cases hd : c = d
    · subst hd
      simp [IndexFrom, isPrefixOf_single]
    · have hcs : c ∈ cs := by
        rcases List.mem_cons.1 h with e | e
        · exact absurd e hd
        · exact e
      have hd2 : d ≠ c := fun e => hd e.symm
      simp [IndexFrom, isPrefixOf_single, hd, hd2, IndexFrom_single_of_mem c cs (i + 1) hcs]
      omega

theorem Index_single_gt_iff (c : Char) (s : GoString) : Index s [c] > -1 ↔ c ∈ s := by
  unfold Index
  by_cases h : c ∈ s
  · simp [IndexFrom_single_of_mem c s 0 h, h]
    omega
  · simp [IndexFrom_single_of_not_mem c s 0 h, h]

theorem Index_single_of_mem (c : Char) (s : GoString) (h : c ∈ s) :
    Index s [c] = (((s.takeWhile (fun d => d != c)).length : Nat) : Int) := by
  unfold Index
  simp [IndexFrom_single_of_mem c s 0 h]

theorem splitLoop_ne_nil (sep : GoString) (n : Nat) (s : GoString) :
    splitLoop sep n s ≠ [] := by
  cases n with
  | zero => simp [splitLoop]
  | succ n =>
    simp only [splitLoop]
    split <;> simp

theorem takeWhile_ne_length_lt (c : Char) :
    ∀ s : GoString, c ∈ s → (s.takeWhile (fun d => d != c)).length < s.length
  | [], h => by simp at h
  | d :: cs, h => by
    by_cases hd : d = c
    · simp [List.takeWhile, hd]
    · have hcs : c ∈ cs := by
        rcases List.mem_cons.1 h with e | e
        · exact absurd e.symm hd
        · exact e
      have := takeWhile_ne_length_lt c cs hcs
      have hb : (d != c) = true := by simp [hd]
      rw [List.takeWhile_cons, hb]
      simp only [if_true, List.length_cons]
      omega

theorem take_takeWhile_length (c : Char) :
    ∀ s : GoString, s.take (s.takeWhile (fun d => d != c)).length = s.takeWhile (fun d => d != c)
  | [] => by simp
  | d :: cs => by
    by_cases hd : d = c
    · simp [List.takeWhile, hd]
    · have hb : (d != c) = true := by simp [hd]
      rw [List.takeWhile_cons, hb]
      simp [take_takeWhile_length c cs]

/-- Cutting at a single-character separator that occurs: the first piece is the
text before the first separator, and there is a second piece. -/
theorem Split_single_of_mem (c : Char) (s : GoString) (h : c ∈ s) :
    ∃ tag rest, Split s [c] = s.takeWhile (fun d => d != c) :: tag :: rest := by
  unfold Split
  have hlen := takeWhile_ne_length_lt c s h
  obtain ⟨n, hn⟩ : ∃ n, s.length = n + 1 := ⟨s.length - 1, by omega⟩
  rw [hn]
  simp only [splitLoop]
  rw [Index_single_of_mem c s h]
  have hnl := splitLoop_ne_nil [c] n (s.drop ((s.takeWhile (fun d => d != c)).length + 1))
  cases hsl : splitLoop [c] n (s.drop ((s.takeWhile (fun d => d != c)).length + 1)) with
  | nil => exact absurd hsl hnl
  | cons tag rest =>
    refine ⟨tag, rest, ?_⟩
    simp [hsl, take_takeWhile_length]

theorem LastIndexFrom_single_of_not_mem (c : Char) :
    ∀ (s : GoString) (i : Nat) (best : Int), c ∉ s → LastIndexFrom [c] s i best = best
  | [], _, _, _ => by simp [LastIndexFrom]
  | d :: cs, i, best, h => by
    have hd : c ≠ d := fun e => h (by simp [e])
    have hcs : c ∉ cs := fun e => h (List.mem_cons_of_mem _ e)
    simp [LastIndexFrom, isPrefixOf_single, hd,
      LastIndexFrom_single_of_not_mem c cs (i + 1) best hcs]

theorem LastIndexFrom_single_append (c : Char) (name : GoString) (hname : c ∉ name) :
    ∀ (p : GoString) (i : Nat) (best : Int),
      LastIndexFrom [c] (p ++ c :: name) i best = ((i + p.length : Nat) : Int)
  | [], i, best => by
    simp [LastIndexFrom, isPrefixOf_single,
      LastIndexFrom_single_of_not_mem c name (i + 1) i hname]
  | d :: p, i, best => by
    rw [List.cons_append, LastIndexFrom, LastIndexFrom_single_append c name hname p (i + 1)]
    simp only [List.length_cons]
    congr 1
    omega

theorem exists_last_split (c : Char) :
    ∀ s : GoString, c ∈ s → ∃ p name, s = p ++ c :: name ∧ c ∉ name
  | [], h => by simp at h
  | d :: cs, h => by
    by_cases hcs : c ∈ cs
    · obtain ⟨p, name, hs, hn⟩ := exists_last_split c cs hcs
      exact ⟨d :: p, name, by simp [hs], hn⟩
    · have hd : c = d := by
        rcases List.mem_cons.1 h with e | e
        · exact e
        · exact absurd e hcs
      exact ⟨[], cs, by simp [hd], hcs⟩

theorem afterLast_of_not_mem (c : Char) :
    ∀ s : GoString, c ∉ s → afterLast c s = s
  | [], _ => rfl
  | d :: cs, h => by
    have hd : d ≠ c := fun e => h (by simp [e])
    have hcs : c ∉ cs := fun e => h (List.mem_cons_of_mem _ e)
    simp [afterLast, hd, hcs]

theorem afterLast_append (c : Char) (name : GoString) (hname : c ∉ name) :
    ∀ p : GoString, afterLast c (p ++ c :: name) = name
  | [] => by simp [afterLast, hname]
  | d :: p => by
    simp [afterLast, afterLast_append c name hname p]

/-- The slice `s[LastIndex(s, c)+1:]` is in range and is the text after the
last `c`. -/
theorem sliceFrom_LastIndex (c : Char) (s : GoString) :
    sliceFrom s (LastIndex s [c] + 1) = some (afterLast c s) := by
  by_cases h : c ∈ s
  · obtain ⟨p, name, hs, hn⟩ := exists_last_split c s h
    subst hs
    unfold LastIndex sliceFrom
    rw [LastIndexFrom_single_append c name hn p 0 (-1), afterLast_append c name hn p]
    have h1 : (0 : Int) ≤ ((0 + p.length : Nat) : Int) + 1 := by omega
    have h2 : ((0 + p.length : Nat) : Int) + 1 ≤ ((p ++ c :: name).length : Int) := by
      simp
    rw [if_pos ⟨h1, h2⟩]
    have h3 : (((0 + p.length : Nat) : Int) + 1).toNat = p.length + 1 := by omega
    rw [h3]
    simp
  · unfold LastIndex sliceFrom
    rw [LastIndexFrom_single_of_not_mem c s 0 (-1) h, afterLast_of_not_mem c s h]
    simp

/-- The closed form of `NewBuilder`: it fails exactly on a missing required
input, never panics, and otherwise returns `resolved envs`. -/
theorem NewBuilder_eq (envs : Env) :
    NewBuilder envs =
      if envs.get "GIT_CLONE_URL".toList = [] then
        .error "envionment variable GIT_CLONE_URL is required".toList
      else if envs.get "IMAGE".toList = [] then
        .error "envionment variable IMAGE is required".toList
      else if envs.get "HUB_USER".toList = [] ∨ envs.get "HUB_TOKEN".toList = [] then
        .error "envionment variable HUB_USER, HUB_TOKEN are required".toList
      else .ok (resolved envs) := by
  have e1 : ":".toList = [':'] := rfl
  have e2 : "/".toList = ['/'] := rfl
  unfold NewBuilder
  by_cases h1 : envs.get "GIT_CLONE_URL".toList = []
  · simp only [h1, ne_eq, not_true_eq_false, if_false, if_true]
  by_cases h2 : envs.get "IMAGE".toList = []
  · simp only [h1, h2, ne_eq, not_false_eq_true, if_false, if_true]
  by_cases h3 : envs.get "HUB_USER".toList = [] ∨ envs.get "HUB_TOKEN".toList = []
  · simp only [h1, h2, h3, if_true, if_false, ne_eq, not_false_eq_true]
  simp only [h1, h2, h3, if_true, if_false, ne_eq, not_false_eq_true]
  have e3 : ".".toList = ['.'] := rfl
  by_cases hc : Index (envs.get "IMAGE".toList) [':'] > -1
  · obtain ⟨tag, rest, hsplit⟩ :=
      Split_single_of_mem ':' _ ((Index_single_gt_iff ':' _).1 hc)
    by_cases hr : envs.get "GIT_REF".toList = [] <;>
    by_cases ht : envs.get "IMAGE_TAG".toList = [] <;>
    by_cases hn : ToLower (envs.get "NO_CACHE".toList) = "true".toList <;>
    by_cases hd : Index (List.takeWhile (fun d => d != ':') (envs.get "IMAGE".toList)) ['.'] > -1 <;>
    simp only [e1, e2, e3, hr, ht, hn, hc, hd, hsplit, if_true, if_false, sliceFrom_LastIndex,
      resolved, imageOf, List.getElem?_cons_zero, List.getElem?_cons_succ, not_true_eq_false,
      not_false_eq_true, decide_True, decide_False, ne_eq]
  · by_cases hr : envs.get "GIT_REF".toList = [] <;>
    by_cases ht : envs.get "IMAGE_TAG".toList = [] <;>
    by_cases hn : ToLower (envs.get "NO_CACHE".toList) = "true".toList <;>
    by_cases hd : Index (envs.get "IMAGE".toList) ['.'] > -1 <;>
    simp only [e1, e2, e3, hr, ht, hn, hc, hd, if_true, if_false, sliceFrom_LastIndex, resolved,
      imageOf, not_true_eq_false, not_false_eq_true, decide_True, decide_False, ne_eq]

theorem Env.get_eq_nil_iff (envs : Env) (k : GoString) :
    envs.get k = [] ↔ envs.missing k := by
  unfold Env.get Env.missing
  cases h : envs k with
  | none => simp
  | some v => simp

/-- The result of `NewBuilder` is a `Builder` exactly when the four required
inputs are non-empty, and then it is `resolved envs`. -/
theorem NewBuilder_ok_iff (envs : Env) (b : Builder) :
    NewBuilder envs = .ok b ↔
      (envs.get "GIT_CLONE_URL".toList ≠ [] ∧ envs.get "IMAGE".toList ≠ [] ∧
        envs.get "HUB_USER".toList ≠ [] ∧ envs.get "HUB_TOKEN".toList ≠ []) ∧
      b = resolved envs := by
  rw [NewBuilder_eq]
  by_cases h1 : envs.get "GIT_CLONE_URL".toList = []
  · simp only [h1, if_true, ne_eq, not_true_eq_false, false_and, reduceCtorEq]
  by_cases h2 : envs.get "IMAGE".toList = []
  · simp only [h1, h2, if_true, if_false, ne_eq, not_true_eq_false, false_and, and_false,
      reduceCtorEq]
  by_cases h3 : envs.get "HUB_USER".toList = []
  · simp only [h1, h2, h3, if_true, if_false, ne_eq, not_true_eq_false, false_and, and_false,
      true_or, reduceCtorEq]
  by_cases h4 : envs.get "HUB_TOKEN".toList = []
  · simp only [h1, h2, h4, if_true, if_false, ne_eq, not_true_eq_false, false_and, and_false,
      or_true, reduceCtorEq]
  simp only [h1, h2, h3, h4, if_false, or_self, ne_eq, not_false_eq_true, and_self, true_and,
    Built.ok.injEq]
  exact eq_comm

/-- `NewBuilder` fails with an error exactly on a missing required input. -/
theorem NewBuilder_error_iff (envs : Env) :
    (∃ msg, NewBuilder envs = .error msg) ↔
      (envs.get "GIT_CLONE_URL".toList = [] ∨ envs.get "IMAGE".toList = [] ∨
        envs.get "HUB_USER".toList = [] ∨ envs.get "HUB_TOKEN".toList = []) := by
  rw [NewBuilder_eq]
  by_cases h1 : envs.get "GIT_CLONE_URL".toList = []
  · simp only [h1, if_true, true_or, iff_true]
    exact ⟨_, rfl⟩
  by_cases h2 : envs.get "IMAGE".toList = []
  · simp only [h1, h2, if_true, if_false, true_or, or_true, iff_true]
    exact ⟨_, rfl⟩
  by_cases h3 : envs.get "HUB_USER".toList = [] ∨ envs.get "HUB_TOKEN".toList = []
  · simp only [h1, h2, h3, if_true, if_false, true_or, or_true, iff_true]
    exact ⟨_, rfl⟩
  simp only [h1, h2, h3, if_false, or_self, iff_false, not_exists, reduceCtorEq,
    not_false_eq_true, implies_true]

theorem TrimSuffix_append (x suf : GoString) : TrimSuffix (x ++ suf) suf = x := by
  unfold TrimSuffix HasSuffix
  rw [if_pos (List.isSuffixOf_iff_suffix.2 (List.suffix_append x suf))]
  simp

theorem TrimSuffix_of_not_suffix (s suf : GoString) (h : ¬ suf <:+ s) : TrimSuffix s suf = s := by
  unfold TrimSuffix HasSuffix
  rw [if_neg (fun e => h (List.isSuffixOf_iff_suffix.1 e))]

theorem not_single_suffix (c : Char) (p name : GoString) (hc : c ∉ name) (h0 : name ≠ []) :
    ¬ [c] <:+ p ++ c :: name := by
  intro h
  have hn : name <:+ p ++ c :: name := ⟨p ++ [c], by simp⟩
  rcases List.suffix_or_suffix_of_suffix h hn with e | e
  · exact hc (List.IsSuffix.mem (by simp) e)
  · rcases List.suffix_cons_iff.1 e with e1 | e1
    · exact hc (by simp [e1])
    · exact h0 (List.suffix_nil.1 e1)

theorem not_suffix_across (c : Char) (suf p name : GoString) (hsuf : c ∉ suf)
    (h : ¬ suf <:+ name) : ¬ suf <:+ p ++ c :: name := by
  intro hs
  have hn : c :: name <:+ p ++ c :: name := List.suffix_append p (c :: name)
  rcases List.suffix_or_suffix_of_suffix hs hn with e | e
  · rcases List.suffix_cons_iff.1 e with e1 | e1
    · exact hsuf (by simp [e1])
    · exact h e1
  · exact hsuf (List.IsSuffix.mem (by simp) e)

theorem afterLast_eq_nil_iff (c : Char) (s : GoString) :
    afterLast c s = [] ↔ s = [] ∨ [c] <:+ s := by
  by_cases h : c ∈ s
  · obtain ⟨p, name, hs, hn⟩ := exists_last_split c s h
    subst hs
    rw [afterLast_append c name hn p]
    constructor
    · intro e
      subst e
      exact Or.inr ⟨p, rfl⟩
    · intro e
      by_contra h0
      rcases e with e | e
      · simp at e
      · exact not_single_suffix c p name hn h0 e
  · rw [afterLast_of_not_mem c s h]
    constructor
    · exact fun e => Or.inl e
    · intro e
      rcases e with e | e
      · exact e
      · exact absurd (List.IsSuffix.mem (by simp) e) h

theorem imageOf_eq_nil_iff (s : GoString) : imageOf s = [] ↔ s = [] ∨ s.head? = some ':' := by
  have e1 : ":".toList = [':'] := rfl
  unfold imageOf
  rw [e1]
  cases s with
  | nil => simp
  | cons d cs =>
    by_cases hd : d = ':'
    · subst hd
      have : Index (':' :: cs) [':'] > -1 := (Index_single_gt_iff ':' _).2 (by simp)
      simp [this]
    · have hb : (d != ':') = true := by simp [hd]
      simp only [List.takeWhile_cons, hb, if_true, List.head?_cons, Option.some.injEq, hd,
        or_false]
      split <;> simp

theorem mainEnvs_get (getenv : GoString → GoString) (k : GoString) (h : k ∈ envList) :
    (mainEnvs getenv).get k = getenv k := by
  simp only [envList, List.mem_cons, List.mem_singleton, List.not_mem_nil, or_false] at h
  rcases h with h | h | h | h | h | h | h | h | h | h <;> subst h <;>
    simp [mainEnvs, envList, Env.set, Env.get, Env.empty]

/-! ## Parameter resolution -/

/-- C1, at the failing input: with `IMAGE=registry.example.com/app:v2` and no
`IMAGE_TAG`, `NewBuilder` first stores the parsed tag `v2` (the second piece of
the split of `IMAGE`) and then overwrites it, so that the returned `ImageTag`
is `latest` and not `v2`. -/
theorem C1_parsed_tag_overwritten :
    envTagInImage.get "IMAGE_TAG".toList = [] ∧
    Index (envTagInImage.get "IMAGE".toList) ":".toList > -1 ∧
    (Split (envTagInImage.get "IMAGE".toList) ":".toList)[1]? = some "v2".toList ∧
    (NewBuilder envTagInImage).toOption.map (fun b => b.ImageTag) = some "latest".toList := by
  decide

/-- C2: `NewBuilder` returns an error exactly when one of `GIT_CLONE_URL`,
`IMAGE`, `HUB_USER`, `HUB_TOKEN` is absent or empty (and it never panics);
when it returns an error to `main`, which it does as soon as one of the four
environment variables is unset or empty, the process exits with status 1
having started no external command. -/
theorem C2_error_iff_missing_and_no_command (envs : Env) (getenv : GoString → GoString)
    (w : World) :
    ((∃ msg, NewBuilder envs = .error msg) ↔
      (envs.missing "GIT_CLONE_URL".toList ∨ envs.missing "IMAGE".toList ∨
        envs.missing "HUB_USER".toList ∨ envs.missing "HUB_TOKEN".toList)) ∧
    NewBuilder envs ≠ .panic ∧
    (∀ msg, NewBuilder (mainEnvs getenv) = .error msg →
      main getenv w = some (1,
        { runs := [],
          stdout := [.message (Println ["BUILDER FAILED: ".toList, msg])] })) ∧
    ((getenv "GIT_CLONE_URL".toList = [] ∨ getenv "IMAGE".toList = [] ∨
        getenv "HUB_USER".toList = [] ∨ getenv "HUB_TOKEN".toList = []) →
      ∃ msg, NewBuilder (mainEnvs getenv) = .error msg) := by
  refine ⟨?_, ?_, ?_, ?_⟩
  · rw [NewBuilder_error_iff, Env.get_eq_nil_iff, Env.get_eq_nil_iff, Env.get_eq_nil_iff,
      Env.get_eq_nil_iff]
  · rw [NewBuilder_eq]
    split_ifs <;> exact fun e => Built.noConfusion e
  · intro msg h
    unfold main
    rw [h]
    rfl
  · intro h
    rw [NewBuilder_error_iff, mainEnvs_get getenv _ (by decide), mainEnvs_get getenv _ (by decide),
      mainEnvs_get getenv _ (by decide), mainEnvs_get getenv _ (by decide)]
    exact h

/-- C2, witnessed on the process environment in which nothing is set. -/
theorem C2_error_iff_missing_and_no_command_witness :
    main (fun _ => []) quietWorld = some (1,
      { runs := [],
        stdout := [.message (Println ["BUILDER FAILED: ".toList,
          "envionment variable GIT_CLONE_URL is required".toList])] }) :=
  (C2_error_iff_missing_and_no_command Env.empty (fun _ => []) quietWorld).2.2.1 _ rfl

/-- C3, refuted as stated: `IMAGE=:v1` is accepted and gives an empty `Image`. -/
theorem C3_empty_image_accepted :
    ∃ b, NewBuilder envColonFirst = .ok b ∧ b.Image = [] :=
  ⟨resolved envColonFirst, by rw [NewBuilder_ok_iff]; exact ⟨by decide, rfl⟩, by decide⟩

/-- C3, amended: a constructed `Builder` has non-empty `GitCloneURL`, `HubUser`
and `HubToken`, and the input `IMAGE` is non-empty; its `Image` is empty
exactly when `IMAGE` begins with a colon. -/
theorem C3_required_nonempty (envs : Env) (b : Builder) (h : NewBuilder envs = .ok b) :
    b.GitCloneURL ≠ [] ∧ b.HubUser ≠ [] ∧ b.HubToken ≠ [] ∧
    envs.get "IMAGE".toList ≠ [] ∧
    (b.Image = [] ↔ (envs.get "IMAGE".toList).head? = some ':') := by
  obtain ⟨⟨h1, h2, h3, h4⟩, hb⟩ := (NewBuilder_ok_iff envs b).1 h
  subst hb
  refine ⟨h1, h3, h4, h2, ?_⟩
  show imageOf (envs.get "IMAGE".toList) = [] ↔ _
  rw [imageOf_eq_nil_iff]
  simp only [h2, false_or]

/-- C3 amended, witnessed on the scenario of the specification. -/
theorem C3_required_nonempty_witness :
    (resolved (envScenario "user".toList "secret".toList)).GitCloneURL ≠ [] ∧
    (resolved (envScenario "user".toList "secret".toList)).HubUser ≠ [] ∧
    (resolved (envScenario "user".toList "secret".toList)).HubToken ≠ [] ∧
    (envScenario "user".toList "secret".toList).get "IMAGE".toList ≠ [] ∧
    ((resolved (envScenario "user".toList "secret".toList)).Image = [] ↔
      ((envScenario "user".toList "secret".toList).get "IMAGE".toList).head? = some ':') :=
  C3_required_nonempty (envScenario "user".toList "secret".toList) _
    ((NewBuilder_ok_iff _ _).2 ⟨by decide, rfl⟩)

/-- C4, refuted as stated: for the prefix `https://example.com/org` and the
name `app.git` (non-empty, no slash), the URL `p/name/` gives the project name
`app`, not `app.git`. -/
theorem C4_name_ending_in_git_cut :
    "app.git".toList ≠ [] ∧ '/' ∉ "app.git".toList ∧
    envDotGitSlash.get "GIT_CLONE_URL".toList =
      "https://example.com/org".toList ++ "/".toList ++ "app.git".toList ++ "/".toList ∧
    (NewBuilder envDotGitSlash).toOption.map (fun b => b.projectName) = some "app".toList ∧
    "app".toList ≠ "app.git".toList := by
  decide

/-- C4, amended: for every prefix `p` and every non-empty `name` without a
slash, the URL `p/name.git` gives the project name `name`; the URLs `p/name/`
and `p/name` give it when `name` does not itself end in `.git` (the other
required inputs being present). -/
theorem C4_project_name_of_url (envs : Env) (p name : GoString)
    (hname : name ≠ []) (hslash : '/' ∉ name)
    (himage : envs.get "IMAGE".toList ≠ []) (huser : envs.get "HUB_USER".toList ≠ [])
    (htoken : envs.get "HUB_TOKEN".toList ≠ []) :
    (envs.get "GIT_CLONE_URL".toList = p ++ "/".toList ++ name ++ ".git".toList →
      ∃ b, NewBuilder envs = .ok b ∧ b.projectName = name) ∧
    (HasSuffix name ".git".toList = false →
      (envs.get "GIT_CLONE_URL".toList = p ++ "/".toList ++ name ++ "/".toList ∨
        envs.get "GIT_CLONE_URL".toList = p ++ "/".toList ++ name) →
      ∃ b, NewBuilder envs = .ok b ∧ b.projectName = name) := by
  have e2 : "/".toList = ['/'] := rfl
  have key : ∀ url, envs.get "GIT_CLONE_URL".toList = url → url ≠ [] →
      TrimSuffix (TrimSuffix url "/".toList) ".git".toList = p ++ '/' :: name →
      ∃ b, NewBuilder envs = .ok b ∧ b.projectName = name := by
    intro url hurl hne htrim
    refine ⟨resolved envs, (NewBuilder_ok_iff envs _).2 ⟨⟨?_, himage, huser, htoken⟩, rfl⟩, ?_⟩
    · rw [hurl]; exact hne
    · show afterLast '/' (TrimSuffix (TrimSuffix (envs.get "GIT_CLONE_URL".toList) "/".toList)
        ".git".toList) = name
      rw [hurl, htrim, afterLast_append '/' name hslash p]
  have hgit : '/' ∉ ".git".toList := by decide
  constructor
  · intro hurl
    refine key _ hurl (by simp) ?_
    have h1 : ¬ "/".toList <:+ p ++ "/".toList ++ name ++ ".git".toList := by
      intro hs
      rcases List.suffix_or_suffix_of_suffix hs
        (List.suffix_append (p ++ "/".toList ++ name) ".git".toList) with e | e
      · exact hgit (List.IsSuffix.mem (by decide) e)
      · have := List.IsSuffix.length_le e
        simp at this
    rw [TrimSuffix_of_not_suffix _ _ h1, TrimSuffix_append, e2]
    simp
  · intro hsuf hurl
    have hns : ¬ ".git".toList <:+ name := by
      intro e
      have := List.isSuffixOf_iff_suffix.2 e
      unfold HasSuffix at hsuf
      rw [this] at hsuf
      exact Bool.noConfusion hsuf
    have h2 : ¬ ".git".toList <:+ p ++ '/' :: name := not_suffix_across '/' _ p name hgit hns
    rcases hurl with hurl | hurl
    · refine key _ hurl (by simp) ?_
      rw [TrimSuffix_append, e2]
      have e : p ++ ['/'] ++ name = p ++ '/' :: name := by simp
      rw [e, TrimSuffix_of_not_suffix _ _ h2]
    · refine key _ hurl (by simp) ?_
      have e : p ++ "/".toList ++ name = p ++ '/' :: name := by simp
      rw [e, e2, TrimSuffix_of_not_suffix _ _ (not_single_suffix '/' p name hslash hname),
        TrimSuffix_of_not_suffix _ _ h2]

/-- C4 amended, witnessed on the three forms of the URL `.../org/app`. -/
theorem C4_project_name_of_url_witness :
    (∃ b, NewBuilder (envScenario "user".toList "secret".toList) = .ok b ∧
      b.projectName = "app".toList) ∧
    (∃ b, NewBuilder ((envScenario "user".toList "secret".toList).set "GIT_CLONE_URL".toList
        "https://example.com/org/app/".toList) = .ok b ∧ b.projectName = "app".toList) :=
  ⟨(C4_project_name_of_url (envScenario "user".toList "secret".toList)
      "https://example.com/org".toList "app".toList (by decide) (by decide) (by decide)
      (by decide) (by decide)).1 (by decide),
   (C4_project_name_of_url ((envScenario "user".toList "secret".toList).set
      "GIT_CLONE_URL".toList "https://example.com/org/app/".toList)
      "https://example.com/org".toList "app".toList (by decide) (by decide) (by decide)
      (by decide) (by decide)).2 (by decide) (Or.inl (by decide))⟩

/-- C5, refuted as stated: the non-empty URL `https://example.com/.git` is
accepted and gives an empty project name. -/
theorem C5_empty_project_name :
    envNoName.get "GIT_CLONE_URL".toList ≠ [] ∧
    (NewBuilder envNoName).toOption.map (fun b => b.projectName) = some [] := by
  decide

/-- C5, amended: the project name of a constructed `Builder` is non-empty
exactly when the clone URL, stripped of one trailing slash and then of one
trailing `.git`, is non-empty and does not end in a slash. -/
theorem C5_project_name_nonempty_iff (envs : Env) (b : Builder)
    (h : NewBuilder envs = .ok b) :
    b.projectName ≠ [] ↔
      (TrimSuffix (TrimSuffix (envs.get "GIT_CLONE_URL".toList) "/".toList) ".git".toList ≠ [] ∧
        HasSuffix (TrimSuffix (TrimSuffix (envs.get "GIT_CLONE_URL".toList) "/".toList)
          ".git".toList) "/".toList = false) := by
  obtain ⟨_, hb⟩ := (NewBuilder_ok_iff envs b).1 h
  subst hb
  show afterLast '/' _ ≠ [] ↔ _
  rw [Ne, afterLast_eq_nil_iff, not_or]
  unfold HasSuffix
  have e2 : "/".toList = ['/'] := rfl
  rw [e2, ← List.isSuffixOf_iff_suffix, Bool.not_eq_true]

/-- C5 amended, witnessed on the scenario of the specification. -/
theorem C5_project_name_nonempty_iff_witness :
    (resolved (envScenario "user".toList "secret".toList)).projectName ≠ [] ↔
      (TrimSuffix (TrimSuffix ((envScenario "user".toList "secret".toList).get
          "GIT_CLONE_URL".toList) "/".toList) ".git".toList ≠ [] ∧
        HasSuffix (TrimSuffix (TrimSuffix ((envScenario "user".toList "secret".toList).get
          "GIT_CLONE_URL".toList) "/".toList) ".git".toList) "/".toList = false) :=
  C5_project_name_nonempty_iff (envScenario "user".toList "secret".toList) _
    ((NewBuilder_ok_iff _ _).2 ⟨by decide, rfl⟩)

/-! ## Build arguments -/

/-- The two tests of `build` hold exactly for the values `${` + inner + `}`. -/
theorem shape_iff (v : GoString) :
    (HasPrefix v "$\x7b".toList && HasSuffix v "\x7d".toList) = true ↔
      ∃ inner, v = '$' :: '\x7b' :: (inner ++ ['\x7d']) := by
  have ep : "$\x7b".toList = ['$', '\x7b'] := rfl
  have es : "\x7d".toList = ['\x7d'] := rfl
  unfold HasPrefix HasSuffix
  rw [ep, es, Bool.and_eq_true, List.isPrefixOf_iff_prefix, List.isSuffixOf_iff_suffix]
  constructor
  · rintro ⟨⟨t, ht⟩, ⟨u, hu⟩⟩
    subst ht
    have hs : ['\x7d'] <:+ '$' :: '\x7b' :: t := ⟨u, hu⟩
    rcases List.suffix_cons_iff.1 hs with e | e
    · simp at e
    rcases List.suffix_cons_iff.1 e with e | e
    · simp at e
    obtain ⟨inner, hi⟩ := e
    exact ⟨inner, by simp [← hi]⟩
  · rintro ⟨inner, rfl⟩
    exact ⟨⟨inner ++ ['\x7d'], by simp⟩, ⟨'$' :: '\x7b' :: inner, by simp⟩⟩

/-- The slice `v[2 : len(v)-1]` of a value of that shape is in range and is
the text between the braces. -/
theorem slice_shape (inner : GoString) :
    slice ('$' :: '\x7b' :: (inner ++ ['\x7d'])) 2
      ((('$' :: '\x7b' :: (inner ++ ['\x7d'])).length : Int) - 1) = some inner := by
  unfold slice
  have hl : ((('$' :: '\x7b' :: (inner ++ ['\x7d'])).length : Int) - 1) =
      ((inner.length + 2 : Nat) : Int) := by
    simp only [List.length_cons, List.length_append, List.length_nil]
    omega
  rw [hl, if_pos (by simp only [List.length_cons, List.length_append, List.length_nil]; omega)]
  have h2 : ((inner.length + 2 : Nat) : Int).toNat = inner.length + 2 := by omega
  have h3 : (2 : Int).toNat = 2 := rfl
  rw [h2, h3, List.take_succ_cons, List.take_succ_cons, List.take_left]
  rfl

theorem resolveSpec_shape (envs : Env) (inner : GoString) :
    resolveSpec envs ('$' :: '\x7b' :: (inner ++ ['\x7d'])) =
      (envs inner).getD ('$' :: '\x7b' :: (inner ++ ['\x7d'])) := by
  unfold resolveSpec
  have ep : "$\x7b".toList = ['$', '\x7b'] := rfl
  rw [ep, if_pos (by simp)]
  simp

theorem resolveSpec_other (envs : Env) (v : GoString)
    (h : ¬ ∃ inner, v = '$' :: '\x7b' :: (inner ++ ['\x7d'])) : resolveSpec envs v = v := by
  unfold resolveSpec
  have ep : "$\x7b".toList = ['$', '\x7b'] := rfl
  rw [ep]
  split
  · rename_i hc
    exfalso
    apply h
    obtain ⟨h1, h2⟩ := hc
    obtain ⟨ys, hys⟩ := List.getLast?_eq_some_iff.1 h2
    refine ⟨ys, ?_⟩
    have := List.take_append_drop 2 v
    rw [h1, hys] at this
    simpa using this.symm
  · rfl

/-- The loop of `build` never panics and appends exactly the pairs of the
specification. -/
theorem buildArgsLoop_eq (envs : Env) :
    ∀ (args : List (GoString × GoString)) (command : List GoString),
      buildArgsLoop envs args command = some (command ++ buildArgsSpec envs args)
  | [], command => by simp [buildArgsLoop, buildArgsSpec]
  | (k, v) :: rest, command => by
    unfold buildArgsLoop
    by_cases hs : (HasPrefix v "$\x7b".toList && HasSuffix v "\x7d".toList) = true
    · obtain ⟨inner, rfl⟩ := (shape_iff v).1 hs
      rw [if_pos hs, slice_shape]
      cases he : envs inner with
      | none =>
        simp only [buildArgsLoop_eq envs rest]
        simp [buildArgsSpec, resolveSpec_shape, he]
      | some envValue =>
        simp only [buildArgsLoop_eq envs rest]
        simp [buildArgsSpec, resolveSpec_shape, he]
    · rw [if_neg hs, buildArgsLoop_eq envs rest]
      have := resolveSpec_other envs v (fun e => hs ((shape_iff v).2 e))
      simp [buildArgsSpec, this]

/-! ## The runner and the pipeline -/

theorem traces_print_message (st : Proc) (text : GoString) :
    (st.print (.message text)).traces = st.traces := by
  simp [Proc.print, Proc.traces, List.filterMap_append]

theorem runs_print (st : Proc) (l : Line) : (st.print l).runs = st.runs := rfl

theorem history_print (st : Proc) (l : Line) : (st.print l).history = st.history := rfl

/-- What `CMD.Run` does on a non-empty command. -/
theorem Run_spec (c : CMD) (h : c.Command ≠ []) (w : World) (st : Proc) :
    ∃ st2, c.Run w st = some (((w.exec st.history c).output, (w.exec st.history c).err), st2) ∧
      st2.runs = st.runs ++ [(c, (w.exec st.history c).err)] ∧
      st2.traces = st.traces ++ [c.traceText (w.now st.history)] := by
  unfold CMD.Run
  cases hc : c.Command with
  | nil => exact absurd hc h
  | cons x xs =>
    simp only [history_print]
    by_cases ho : (w.exec st.history c).output.length > 0
    · refine ⟨_, by rw [if_pos ho], ?_, ?_⟩
      · simp [Proc.print]
      · simp [Proc.print, Proc.traces, List.filterMap_append]
    · refine ⟨_, by rw [if_neg ho], ?_, ?_⟩
      · simp [Proc.print]
      · simp [Proc.print, Proc.traces, List.filterMap_append]

/-- Every step of the shape run, then report, runs its command. -/
theorem runs_of_report (c : CMD) (h : c.Command ≠ []) (w : World)
    (failed : GoString → GoString) (succeeded : GoString) :
    Runs (fun w st =>
      match c.Run w st with
      | none => none
      | some ((_, some err), st) => some (some err, st.print (.message (failed err)))
      | some ((_, none), st) => some (none, st.print (.message succeeded))) c w := by
  intro st
  obtain ⟨st2, hrun, hruns, htr⟩ := Run_spec c h w st
  simp only [hrun]
  cases he : (w.exec st.history c).err with
  | none =>
    refine ⟨_, rfl, ?_, ?_⟩
    · rw [runs_print, hruns, he]
    · rw [traces_print_message, htr]
  | some err =>
    refine ⟨_, rfl, ?_, ?_⟩
    · rw [runs_print, hruns, he]
    · rw [traces_print_message, htr]

theorem gitPull_runs (b : Builder) (w : World) : Runs b.gitPull (gitPullCommand b) w :=
  runs_of_report (gitPullCommand b) (by simp [gitPullCommand]) w _ _

theorem gitReset_runs (b : Builder) (w : World) :
    Runs b.gitReset (gitResetCommand b w.getwd) w := by
  intro st
  exact runs_of_report (gitResetCommand b w.getwd) (by simp [gitResetCommand]) w _ _ st

theorem loginRegistry_runs (b : Builder) (w : World) :
    Runs b.loginRegistry (loginCommand b) w :=
  runs_of_report (loginCommand b) (by simp [loginCommand]) w _ _

theorem push_runs (b : Builder) (imageURL : GoString) (w : World) :
    Runs (b.push imageURL) (pushCommand imageURL) w :=
  runs_of_report (pushCommand imageURL) (by simp [pushCommand]) w _ _

theorem build_runs (b : Builder) (imageURL : GoString) (w : World) :
    Runs (b.build imageURL) (buildCommandSpec b imageURL w) w := by
  intro st
  have hne : (buildCommandSpec b imageURL w).Command ≠ [] := by simp [buildCommandSpec]
  unfold Builder.build
  by_cases hb : b.BuildArgs = []
  · have hc : buildCommandSpec b imageURL w =
        { Command := buildOptions b imageURL ++ [".".toList] } := by
      simp [buildCommandSpec, hb]
    simp only [hb, ne_eq, not_true_eq_false, if_false]
    rw [← hc]
    exact runs_of_report _ hne w _ _ st
  · cases hu : w.unmarshal b.BuildArgs with
    | error err =>
      have hc : buildCommandSpec b imageURL w =
          { Command := buildOptions b imageURL ++ [".".toList] } := by
        simp [buildCommandSpec, hb, hu]
      simp only [hb, ne_eq, not_false_eq_true, if_true]
      rw [← hc]
      obtain ⟨st2, h1, h2, h3⟩ := runs_of_report _ hne w
        (fun err => Println ["Run docker build failed:".toList, err])
        (Println ["Run docker build succeed.".toList])
        (st.print (.message (Println ["Unmarshal BUILD_ARG error: ".toList, err])))
      rw [history_print, runs_print, traces_print_message] at *
      exact ⟨st2, h1, h2, h3⟩
    | ok args =>
      have hc : buildCommandSpec b imageURL w =
          { Command := buildOptions b imageURL ++ buildArgsSpec b.envs args ++ [".".toList] } := by
        simp [buildCommandSpec, hb, hu]
      simp only [hb, ne_eq, not_false_eq_true, if_true, buildArgsLoop_eq]
      rw [← hc]
      exact runs_of_report _ hne w _ _ st

theorem seqSteps_spec (w : World) (steps : List Step) (cmds : List CMD)
    (h : List.Forall₂ (fun s c => Runs s c w) steps cmds) :
    ∀ st : Proc, ∃ err st2, seqSteps steps w st = some (err, st2) ∧
      st2.runs = st.runs ++ runUntilFail w cmds st.history ∧
      st2.traces =
        st.traces ++ tracesOf w ((runUntilFail w cmds st.history).map Prod.fst) st.history ∧
      (err = none ↔ ∀ e ∈ runUntilFail w cmds st.history, e.2 = none) := by
  induction h with
  | nil =>
    intro st
    exact ⟨none, st, rfl, by simp [runUntilFail], by simp [runUntilFail, tracesOf],
      by simp [runUntilFail]⟩
  | @cons s c rest cs hs _ ih =>
    intro st
    obtain ⟨st1, h1, h2, h3⟩ := hs st
    cases he : (w.exec st.history c).err with
    | some err =>
      rw [he] at h1 h2
      refine ⟨some err, st1, by simp [seqSteps, h1], ?_, ?_, ?_⟩
      · simp [runUntilFail, he, h2]
      · simp [runUntilFail, he, h3, tracesOf]
      · simp [runUntilFail, he]
    | none =>
      rw [he] at h1 h2
      obtain ⟨err, st2, k1, k2, k3, k4⟩ := ih st1
      have hh : st1.history = st.history ++ [c] := by simp [Proc.history, h2]
      rw [hh] at k2 k3 k4
      refine ⟨err, st2, by simp [seqSteps, h1, k1], ?_, ?_, ?_⟩
      · simp [runUntilFail, he, k2, h2]
      · simp [runUntilFail, he, k3, h3, tracesOf]
      · simp [runUntilFail, he, k4]

theorem runUntilFail_initial (w : World) :
    ∀ (cmds hist : List CMD), (runUntilFail w cmds hist).map Prod.fst <+: cmds
  | [], _ => by simp [runUntilFail]
  | c :: cs, hist => by
    cases he : (w.exec hist c).err with
    | none =>
      simp only [runUntilFail, he, List.map_cons]
      exact (List.prefix_cons_inj c).2 (runUntilFail_initial w cs (hist ++ [c]))
    | some err =>
      simp only [runUntilFail, he, List.map_cons, List.map_nil]
      exact ⟨cs, rfl⟩

theorem runUntilFail_only_last_fails (w : World) :
    ∀ (cmds hist : List CMD) (i : Nat) (e : CMD × GoError),
      i + 1 < (runUntilFail w cmds hist).length → (runUntilFail w cmds hist)[i]? = some e →
      e.2 = none
  | [], _, _, _ => by simp [runUntilFail]
  | c :: cs, hist, i, e => by
    cases he : (w.exec hist c).err with
    | some err => simp [runUntilFail, he]
    | none =>
      simp only [runUntilFail, he, List.length_cons]
      cases i with
      | zero =>
        intro _ h
        simp only [List.getElem?_cons_zero, Option.some.injEq] at h
        rw [← h]
      | succ i =>
        intro hl h
        rw [List.getElem?_cons_succ] at h
        exact runUntilFail_only_last_fails w cs (hist ++ [c]) i e (by omega) h

theorem run_eq_seqSteps (b : Builder) (w : World) (st : Proc) (h : w.chdir baseSpace = none) :
    b.run w st =
      seqSteps [b.gitPull, b.gitReset, b.loginRegistry, b.build b.imageURL, b.push b.imageURL]
        w st := by
  unfold Builder.run
  rw [h]
  simp only [seqSteps]

theorem pipeline_runs (b : Builder) (w : World) :
    List.Forall₂ (fun s c => Runs s c w)
      [b.gitPull, b.gitReset, b.loginRegistry, b.build b.imageURL, b.push b.imageURL]
      (pipeline b w) :=
  .cons (gitPull_runs b w) (.cons (gitReset_runs b w) (.cons (loginRegistry_runs b w)
    (.cons (build_runs b b.imageURL w) (.cons (push_runs b b.imageURL w) .nil))))

/-- What `run` does: when the change of directory fails it returns that error
having run nothing; otherwise it runs the pipeline until a command fails. -/
theorem run_spec (b : Builder) (w : World) :
    ∃ err st, b.run w {} = some (err, st) ∧
      ((∃ e, w.chdir baseSpace = some e ∧ err ≠ none ∧ st.runs = [] ∧ st.traces = []) ∨
       (w.chdir baseSpace = none ∧
        st.runs = runUntilFail w (pipeline b w) [] ∧
        st.traces = tracesOf w ((runUntilFail w (pipeline b w) []).map Prod.fst) [] ∧
        (err = none ↔ ∀ e ∈ runUntilFail w (pipeline b w) [], e.2 = none))) := by
  cases hch : w.chdir baseSpace with
  | some e =>
    refine ⟨_, {}, by unfold Builder.run; rw [hch], Or.inl ⟨e, rfl, by simp, rfl, rfl⟩⟩
  | none =>
    obtain ⟨err, st, h1, h2, h3, h4⟩ := seqSteps_spec w _ _ (pipeline_runs b w) {}
    refine ⟨err, st, by rw [run_eq_seqSteps b w {} hch]; exact h1, Or.inr ⟨rfl, ?_, ?_, h4⟩⟩
    · simpa [Proc.history] using h2
    · simpa [Proc.history, Proc.traces] using h3

theorem runUntilFail_outcome (w : World) :
    ∀ (cmds hist : List CMD) (i : Nat) (c : CMD) (e : GoError),
      (runUntilFail w cmds hist)[i]? = some (c, e) →
      e = (w.exec (hist ++ ((runUntilFail w cmds hist).map Prod.fst).take i) c).err
  | [], _, _, _, _ => by simp [runUntilFail]
  | c0 :: cs, hist, 0, c, e => by
    intro h
    simp only [runUntilFail, List.getElem?_cons_zero, Option.some.injEq, Prod.mk.injEq] at h
    obtain ⟨h1, h2⟩ := h
    subst h1
    simp [h2]
  | c0 :: cs, hist, i + 1, c, e => by
    intro h
    cases he : (w.exec hist c0).err with
    | some err => simp [runUntilFail, he] at h
    | none =>
      simp only [runUntilFail, he, List.getElem?_cons_succ] at h
      have := runUntilFail_outcome w cs (hist ++ [c0]) i c e h
      simpa [runUntilFail, he] using this

theorem runUntilFail_all_ok (w : World) (hok : ∀ hist c, (w.exec hist c).err = none) :
    ∀ (cmds hist : List CMD), runUntilFail w cmds hist = cmds.map (fun c => (c, none))
  | [], _ => rfl
  | c :: cs, hist => by
    simp [runUntilFail, hok, runUntilFail_all_ok w hok cs]

theorem scenario_gets (user token : GoString) :
    (envScenario user token).get "GIT_CLONE_URL".toList =
        "https://example.com/org/app.git".toList ∧
    (envScenario user token).get "IMAGE".toList = "registry.example.com/app".toList ∧
    (envScenario user token).get "IMAGE_TAG".toList = "v1".toList ∧
    (envScenario user token).get "HUB_USER".toList = user ∧
    (envScenario user token).get "HUB_TOKEN".toList = token ∧
    (envScenario user token).get "GIT_REF".toList = [] ∧
    (envScenario user token).get "DOCKERFILE_PATH".toList = [] ∧
    (envScenario user token).get "BUILD_ARGS".toList = [] ∧
    (envScenario user token).get "NO_CACHE".toList = [] := by
  simp [envScenario, Env.set, Env.get, Env.empty]

theorem resolved_scenario (user token : GoString) :
    resolved (envScenario user token) =
      { GitCloneURL := "https://example.com/org/app.git".toList
        GitRef := "master".toList
        GitType := "branch".toList
        Image := "registry.example.com/app".toList
        ImageTag := "v1".toList
        HubUser := user
        HubToken := token
        hub := "registry.example.com/app".toList
        projectName := "app".toList
        envs := envScenario user token } := by
  obtain ⟨g1, g2, g3, g4, g5, g6, g7, g8, g9⟩ := scenario_gets user token
  have i1 : imageOf "registry.example.com/app".toList = "registry.example.com/app".toList := by
    decide
  have i2 : Index "registry.example.com/app".toList ".".toList > -1 := by decide
  have i3 : afterLast '/' (TrimSuffix (TrimSuffix "https://example.com/org/app.git".toList
      "/".toList) ".git".toList) = "app".toList := by decide
  have i4 : ¬ ToLower [] = "true".toList := by decide
  have i5 : "v1".toList ≠ [] := by decide
  simp only [resolved, g1, g2, g3, g4, g5, g6, g7, g8, g9, i1, i2, i3, i4, i5, if_true,
    if_false, decide_False, ne_eq, not_false_eq_true]

/-! ## The scenario -/

/-- C6, refuted as stated: on the scenario input the registry host `hub` is
the whole image repository `registry.example.com/app`, not
`registry.example.com`. -/
theorem C6_hub_is_image_repository :
    (NewBuilder (envScenario "user".toList "secret".toList)).toOption.map (fun b => b.hub) =
      some "registry.example.com/app".toList ∧
    "registry.example.com/app".toList ≠ "registry.example.com".toList := by
  decide

/-- C6, amended: on the scenario input, for all non-empty credentials,
`NewBuilder` yields `projectName = app`, `hub = registry.example.com/app`, and
the image reference `registry.example.com/app:v1`, which is the `-t` argument
of the build command and the argument of the push command that `run` issues
(both are issued when no step fails). -/
theorem C6_scenario (user token : GoString) (huser : user ≠ []) (htoken : token ≠ [])
    (w : World) :
    ∃ b, NewBuilder (envScenario user token) = .ok b ∧
      b.projectName = "app".toList ∧
      b.hub = "registry.example.com/app".toList ∧
      b.imageURL = "registry.example.com/app:v1".toList ∧
      ∃ err st, b.run w {} = some (err, st) ∧
        st.history <+:
          [gitPullCommand b, gitResetCommand b w.getwd, loginCommand b,
           { Command := ["buildah".toList, "bud".toList, "-f".toList, "app".toList,
               "-t".toList, "registry.example.com/app:v1".toList, ".".toList] },
           { Command := ["buildah".toList, "push".toList,
               "registry.example.com/app:v1".toList] }] ∧
        (w.chdir baseSpace = none → (∀ hist c, (w.exec hist c).err = none) →
          err = none ∧
          st.history =
            [gitPullCommand b, gitResetCommand b w.getwd, loginCommand b,
             { Command := ["buildah".toList, "bud".toList, "-f".toList, "app".toList,
                 "-t".toList, "registry.example.com/app:v1".toList, ".".toList] },
             { Command := ["buildah".toList, "push".toList,
                 "registry.example.com/app:v1".toList] }]) := by
  obtain ⟨g1, g2, g3, g4, g5, _⟩ := scenario_gets user token
  have hok : NewBuilder (envScenario user token) = .ok (resolved (envScenario user token)) := by
    rw [NewBuilder_ok_iff, g1, g2, g4, g5]
    exact ⟨⟨by decide, by decide, huser, htoken⟩, rfl⟩
  have hbc : buildCommandSpec (resolved (envScenario user token))
      (resolved (envScenario user token)).imageURL w =
      { Command := ["buildah".toList, "bud".toList, "-f".toList, "app".toList, "-t".toList,
          "registry.example.com/app:v1".toList, ".".toList] } := by
    rw [resolved_scenario]
    rfl
  have hp : pipeline (resolved (envScenario user token)) w =
      [gitPullCommand (resolved (envScenario user token)),
       gitResetCommand (resolved (envScenario user token)) w.getwd,
       loginCommand (resolved (envScenario user token)),
       { Command := ["buildah".toList, "bud".toList, "-f".toList, "app".toList,
           "-t".toList, "registry.example.com/app:v1".toList, ".".toList] },
       { Command := ["buildah".toList, "push".toList,
           "registry.example.com/app:v1".toList] }] := by
    unfold pipeline
    rw [hbc]
    congr 4
  refine ⟨_, hok, by rw [resolved_scenario], by rw [resolved_scenario],
    by rw [resolved_scenario]; rfl, ?_⟩
  obtain ⟨err, st, hrun, hcase⟩ := run_spec (resolved (envScenario user token)) w
  refine ⟨err, st, hrun, ?_⟩
  rcases hcase with ⟨e, hch, _, hr, _⟩ | ⟨_, hr, _, herr⟩
  · refine ⟨by simp [Proc.history, hr], ?_⟩
    intro hc
    rw [hch] at hc
    exact Option.noConfusion hc
  · have hh : st.history =
        (runUntilFail w (pipeline (resolved (envScenario user token)) w) []).map Prod.fst := by
      simp [Proc.history, hr]
    constructor
    · rw [hh, ← hp]
      exact runUntilFail_initial w _ _
    · intro _ hall
      have hall2 := runUntilFail_all_ok w hall (pipeline (resolved (envScenario user token)) w) []
      constructor
      · rw [herr, hall2]
        simp
      · rw [hh, hall2, ← hp, List.map_map]
        exact List.map_id _

/-- C6 amended, witnessed with the credentials `user` and `secret`. -/
theorem C6_scenario_witness :
    ∃ b, NewBuilder (envScenario "user".toList "secret".toList) = .ok b ∧
      b.projectName = "app".toList ∧
      b.hub = "registry.example.com/app".toList ∧
      b.imageURL = "registry.example.com/app:v1".toList := by
  obtain ⟨b, h1, h2, h3, h4, _⟩ :=
    C6_scenario "user".toList "secret".toList (by decide) (by decide) quietWorld
  exact ⟨b, h1, h2, h3, h4⟩

/-! ## Build arguments of the build command -/

/-- C7: when the non-empty `BuildArgs` decodes to the entries `args`, the
command `build` runs is the options, then one adjacent pair `--build-arg`,
`k=r` per entry `(k, v)` and nothing else, then the context `.`; here `r` is
`envs[NAME]` when `v` is `${NAME}` with `NAME` a key of `envs`, and `v` itself
otherwise.  (The empty string is no JSON text, so a `BuildArgs` that decodes is
non-empty.) -/
theorem C7_build_args (b : Builder) (imageURL : GoString) (w : World) (st : Proc)
    (args : List (GoString × GoString)) (hne : b.BuildArgs ≠ [])
    (hparse : w.unmarshal b.BuildArgs = .ok args) :
    ∃ command st2,
      b.build imageURL w st =
        some ((w.exec st.history { Command := command }).err, st2) ∧
      st2.runs = st.runs ++
        [({ Command := command }, (w.exec st.history { Command := command }).err)] ∧
      command = buildOptions b imageURL ++
        args.flatMap (fun kv =>
          ["--build-arg".toList, kv.1 ++ "=".toList ++ resolveSpec b.envs kv.2]) ++
        [".".toList] ∧
      (∀ k v, (k, v) ∈ args →
        ["--build-arg".toList, k ++ "=".toList ++ resolveSpec b.envs v] <:+: command) ∧
      (∀ name value, b.envs name = some value →
        resolveSpec b.envs ("$\x7b".toList ++ name ++ "\x7d".toList) = value) ∧
      (∀ name, b.envs name = none →
        resolveSpec b.envs ("$\x7b".toList ++ name ++ "\x7d".toList) =
          "$\x7b".toList ++ name ++ "\x7d".toList) ∧
      (∀ v, (¬ ∃ name, v = "$\x7b".toList ++ name ++ "\x7d".toList) →
        resolveSpec b.envs v = v) := by
  have hc : buildCommandSpec b imageURL w =
      { Command := buildOptions b imageURL ++ buildArgsSpec b.envs args ++ [".".toList] } := by
    simp [buildCommandSpec, hne, hparse]
  obtain ⟨st2, h1, h2, _⟩ := build_runs b imageURL w st
  rw [hc] at h1 h2
  refine ⟨_, st2, h1, h2, rfl, ?_, ?_, ?_, ?_⟩
  · intro k v hkv
    obtain ⟨l1, l2, hl⟩ := List.append_of_mem hkv
    refine ⟨buildOptions b imageURL ++ buildArgsSpec b.envs l1,
      buildArgsSpec b.envs l2 ++ [".".toList], ?_⟩
    rw [hl]
    simp [buildArgsSpec, List.flatMap_append]
  · intro name value hv
    have := resolveSpec_shape b.envs name
    rw [hv] at this
    exact this
  · intro name hv
    have := resolveSpec_shape b.envs name
    rw [hv] at this
    exact this
  · intro v hv
    exact resolveSpec_other b.envs v (fun ⟨inner, hi⟩ => hv ⟨inner, hi⟩)

/-- C7, witnessed: with `FOO=bar` in the input mapping and `BAR` absent, the
arguments `A=${FOO}` and `B=${BAR}` become `A=bar` and the literal `B=${BAR}`. -/
theorem C7_build_args_witness :
    ∃ st2, argsBuilder.build "app:v1".toList argsWorld {} = some (none, st2) ∧
      st2.runs =
        [({ Command := ["buildah".toList, "bud".toList, "-f".toList, "app".toList,
            "-t".toList, "app:v1".toList, "--build-arg".toList, "A=bar".toList,
            "--build-arg".toList, "B=$\x7bBAR\x7d".toList, ".".toList] }, none)] := by
  obtain ⟨command, st2, h1, h2, h3, _⟩ := C7_build_args argsBuilder "app:v1".toList argsWorld {}
    [("A".toList, "$\x7bFOO\x7d".toList), ("B".toList, "$\x7bBAR\x7d".toList)]
    (by decide) rfl
  have hx : command = ["buildah".toList, "bud".toList, "-f".toList, "app".toList,
      "-t".toList, "app:v1".toList, "--build-arg".toList, "A=bar".toList,
      "--build-arg".toList, "B=$\x7bBAR\x7d".toList, ".".toList] := by
    rw [h3]
    decide
  subst hx
  exact ⟨st2, h1, h2⟩

/-- C8, refuted as stated: for the project named `--build-arg` with a
`BUILD_ARGS` that does not decode, the one command `build` issues has the
element `--build-arg`, as the value of its `-f` option. -/
theorem C8_element_from_project_name :
    (NewBuilder envDashName).toOption.map (fun b => b.BuildArgs) = some "\x7b".toList ∧
    (∃ err, quietWorld.unmarshal "\x7b".toList = .error err) ∧
    (NewBuilder envDashName).toOption.bind (fun b =>
        (b.build b.imageURL quietWorld {}).map (fun r => r.2.history)) =
      some [{ Command := ["buildah".toList, "bud".toList, "-f".toList, "--build-arg".toList,
        "-t".toList, "app:latest".toList, ".".toList] }] ∧
    "--build-arg".toList ∈ ["buildah".toList, "bud".toList, "-f".toList, "--build-arg".toList,
        "-t".toList, "app:latest".toList, ".".toList] :=
  ⟨by decide, ⟨_, rfl⟩, by decide, by decide⟩

/-- C8, amended: when the non-empty `BuildArgs` fails to decode, `build` still
runs exactly one command, the options followed by the context `.` with no
build-argument pair added, so that `--build-arg` can be an element of it only
as the value of `-f` or of `-t`; and `build` returns the error of that command,
not the decoding error. -/
theorem C8_malformed_build_args (b : Builder) (imageURL : GoString) (w : World) (st : Proc)
    (derr : GoString) (hne : b.BuildArgs ≠ []) (hparse : w.unmarshal b.BuildArgs = .error derr) :
    ∃ st2,
      b.build imageURL w st =
        some ((w.exec st.history { Command := buildOptions b imageURL ++ [".".toList] }).err,
          st2) ∧
      st2.runs = st.runs ++
        [({ Command := buildOptions b imageURL ++ [".".toList] },
          (w.exec st.history { Command := buildOptions b imageURL ++ [".".toList] }).err)] ∧
      ("--build-arg".toList ∈ buildOptions b imageURL ++ [".".toList] →
        b.projectName ++ b.DockerFilePath = "--build-arg".toList ∨
          imageURL = "--build-arg".toList) := by
  have hc : buildCommandSpec b imageURL w =
      { Command := buildOptions b imageURL ++ [".".toList] } := by
    simp [buildCommandSpec, hne, hparse]
  obtain ⟨st2, h1, h2, _⟩ := build_runs b imageURL w st
  rw [hc] at h1 h2
  refine ⟨st2, h1, h2, ?_⟩
  intro hmem
  unfold buildOptions at hmem
  by_cases hf : b.projectName ++ b.DockerFilePath = [] <;> by_cases hn : b.NoCache = true <;>
    simp [hf, hn] at hmem <;> tauto

/-- C8 amended, witnessed on the scenario `Builder` with an undecodable
`BuildArgs`. -/
theorem C8_malformed_build_args_witness :
    ∃ st2,
      ({ scenarioBuilder with BuildArgs := "\x7b".toList } : Builder).build "app:v1".toList
          quietWorld {} =
        some (none, st2) ∧
      st2.runs =
        [({ Command := ["buildah".toList, "bud".toList, "-f".toList, "app".toList,
            "-t".toList, "app:v1".toList, ".".toList] }, none)] := by
  obtain ⟨st2, h1, h2, _⟩ := C8_malformed_build_args
    ({ scenarioBuilder with BuildArgs := "\x7b".toList } : Builder) "app:v1".toList quietWorld {}
    "unexpected end of JSON input".toList (by decide) rfl
  exact ⟨st2, h1, h2⟩

/-! ## Fail-fast order -/

/-- C9: `run` always returns; the commands it has started are a prefix of
clone, checkout, login, build, push in that order; every started command but
the last one succeeded, each recorded error being the outcome of that command
after the ones before it, so that nothing is started after a failure (after a
failing clone nothing else is started); and `run` returns an error exactly when
the change of directory failed or a started command failed. -/
theorem C9_fail_fast (b : Builder) (w : World) :
    ∃ err st, b.run w {} = some (err, st) ∧
      st.history <+: pipeline b w ∧
      (∀ i e, i + 1 < st.runs.length → st.runs[i]? = some e → e.2 = none) ∧
      (∀ i c e, st.runs[i]? = some (c, e) → e = (w.exec (st.history.take i) c).err) ∧
      ((w.exec [] (gitPullCommand b)).err ≠ none → st.history <+: [gitPullCommand b]) ∧
      (err ≠ none ↔ (w.chdir baseSpace ≠ none ∨ ∃ e ∈ st.runs, e.2 ≠ none)) := by
  obtain ⟨err, st, hrun, hcase⟩ := run_spec b w
  refine ⟨err, st, hrun, ?_⟩
  rcases hcase with ⟨e, hch, herr, hr, _⟩ | ⟨hch, hr, _, herr⟩
  · refine ⟨by simp [Proc.history, hr], by simp [hr], by simp [hr], by simp [Proc.history, hr],
      ?_⟩
    simp [herr, hch]
  · have hh : st.history = (runUntilFail w (pipeline b w) []).map Prod.fst := by
      simp [Proc.history, hr]
    refine ⟨?_, ?_, ?_, ?_, ?_⟩
    · rw [hh]
      exact runUntilFail_initial w _ _
    · intro i e hi he
      rw [hr] at hi he
      exact runUntilFail_only_last_fails w _ _ i e hi he
    · intro i c e he
      rw [hr] at he
      have := runUntilFail_outcome w _ _ i c e he
      rw [hh]
      simpa using this
    · intro hfail
      rw [hh]
      cases he : (w.exec [] (gitPullCommand b)).err with
      | none => exact absurd he hfail
      | some e => simp [pipeline, runUntilFail, he]
    · rw [hr, Ne, herr, hch]
      simp

theorem resolveSpec_congr (envs1 envs2 : Env) (key : GoString)
    (hsame : ∀ k, k ≠ key → envs1 k = envs2 k) (v : GoString)
    (hv : v ≠ '$' :: '\x7b' :: (key ++ ['\x7d'])) :
    resolveSpec envs1 v = resolveSpec envs2 v := by
  by_cases hs : ∃ inner, v = '$' :: '\x7b' :: (inner ++ ['\x7d'])
  · obtain ⟨inner, rfl⟩ := hs
    have hk : inner ≠ key := fun e => hv (by rw [e])
    rw [resolveSpec_shape, resolveSpec_shape, hsame inner hk]
  · rw [resolveSpec_other envs1 v hs, resolveSpec_other envs2 v hs]

theorem buildArgsSpec_congr (envs1 envs2 : Env) :
    ∀ args : List (GoString × GoString),
      (∀ kv ∈ args, resolveSpec envs1 kv.2 = resolveSpec envs2 kv.2) →
      buildArgsSpec envs1 args = buildArgsSpec envs2 args
  | [], _ => rfl
  | kv :: rest, h => by
    have h1 := h kv (List.mem_cons_self _ _)
    have h2 := buildArgsSpec_congr envs1 envs2 rest
      (fun x hx => h x (List.mem_cons_of_mem _ hx))
    unfold buildArgsSpec at h2 ⊢
    simp only [List.flatMap_cons, h1, h2]

/-! ## The registry token in the trace -/

/-- C10, refuted as stated: the scenario `Builder` and the one that differs
from it only in `HubToken` write different trace lines; the third trace line
of the run prints the token `secret`. -/
theorem C10_token_in_trace :
    (scenarioBuilder.run quietWorld {}).map (fun r => r.2.traces) ≠
      (otherTokenBuilder.run quietWorld {}).map (fun r => r.2.traces) ∧
    (scenarioBuilder.run quietWorld {}).map (fun r => r.2.traces[2]?) =
      some (some ("[2024-01-01 00:00:00] Run CMD: docker login registry.example.com/app " ++
        "--username user --password secret\n").toList) := by
  decide

/-- C10, amended: the token is printed in the trace, by the login step always
and by the build step when a build-argument value is `${HUB_TOKEN}`.  For two
inputs that differ only in `HUB_TOKEN`, the clone, checkout and push commands
are the same, and the build command is the same provided no decoded
build-argument value is the text `${HUB_TOKEN}`; the trace line of the login
command ends with the token in clear; a decoded build argument `k` of value
`${HUB_TOKEN}` puts the pair `--build-arg`, `k=<token>` in the build command;
and the run writes one trace line per started command of the pipeline. -/
theorem C10_token_in_login_and_build_args (envs1 envs2 : Env) (b1 b2 : Builder) (w : World)
    (hsame : ∀ k, k ≠ "HUB_TOKEN".toList → envs1 k = envs2 k)
    (h1 : NewBuilder envs1 = .ok b1) (h2 : NewBuilder envs2 = .ok b2) :
    gitPullCommand b1 = gitPullCommand b2 ∧
    gitResetCommand b1 w.getwd = gitResetCommand b2 w.getwd ∧
    pushCommand b1.imageURL = pushCommand b2.imageURL ∧
    ((∀ args, w.unmarshal (envs1.get "BUILD_ARGS".toList) = .ok args →
        ∀ kv ∈ args, kv.2 ≠ "$\x7bHUB_TOKEN\x7d".toList) →
      buildCommandSpec b1 b1.imageURL w = buildCommandSpec b2 b2.imageURL w) ∧
    (∀ time : GoString,
      (loginCommand b1).traceText time =
        "[".toList ++ time ++ "] Run CMD: docker login ".toList ++ b1.hub ++
          " --username ".toList ++ b1.HubUser ++ " --password ".toList ++
          envs1.get "HUB_TOKEN".toList ++ "\n".toList) ∧
    (∀ args k, b1.BuildArgs ≠ [] → w.unmarshal b1.BuildArgs = .ok args →
      (k, "$\x7bHUB_TOKEN\x7d".toList) ∈ args →
      ["--build-arg".toList, k ++ "=".toList ++ envs1.get "HUB_TOKEN".toList] <:+:
        (buildCommandSpec b1 b1.imageURL w).Command) ∧
    (∃ err st, b1.run w {} = some (err, st) ∧
      st.traces = tracesOf w st.history [] ∧
      st.history <+: pipeline b1 w) := by
  obtain ⟨⟨_, _, _, htok⟩, hb1⟩ := (NewBuilder_ok_iff envs1 b1).1 h1
  obtain ⟨_, hb2⟩ := (NewBuilder_ok_iff envs2 b2).1 h2
  subst hb1 hb2
  have hget : ∀ k, k ≠ "HUB_TOKEN".toList → envs1.get k = envs2.get k := by
    intro k hk
    unfold Env.get
    rw [hsame k hk]
  have g1 := hget "GIT_CLONE_URL".toList (by decide)
  have g2 := hget "GIT_REF".toList (by decide)
  have g3 := hget "IMAGE".toList (by decide)
  have g4 := hget "IMAGE_TAG".toList (by decide)
  have g5 := hget "DOCKERFILE_PATH".toList (by decide)
  have g6 := hget "BUILD_ARGS".toList (by decide)
  have g7 := hget "NO_CACHE".toList (by decide)
  refine ⟨?_, ?_, ?_, ?_, ?_, ?_, ?_⟩
  · simp only [gitPullCommand, resolved, g1]
  · simp only [gitResetCommand, resolved, g1, g2]
  · simp only [pushCommand, Builder.imageURL, resolved, g3, g4]
  · intro hargs
    simp only [buildCommandSpec, buildOptions, Builder.imageURL, resolved, g1, g3, g4, g5, g6,
      g7]
    cases hu : w.unmarshal (envs2.get "BUILD_ARGS".toList) with
    | error e => rfl
    | ok args =>
      have hcongr : buildArgsSpec envs1 args = buildArgsSpec envs2 args := by
        apply buildArgsSpec_congr
        intro kv hkv
        apply resolveSpec_congr envs1 envs2 "HUB_TOKEN".toList hsame
        rw [g6] at hargs
        exact hargs args hu kv hkv
      simp only [hcongr]
  · intro time
    simp [CMD.traceText, loginCommand, Join, List.intercalate, resolved]
  · intro args k hne hparse hmem
    have hres : resolveSpec envs1 "$\x7bHUB_TOKEN\x7d".toList = envs1.get "HUB_TOKEN".toList := by
      have hshape := resolveSpec_shape envs1 "HUB_TOKEN".toList
      have hx : "$\x7bHUB_TOKEN\x7d".toList = '$' :: '\x7b' :: ("HUB_TOKEN".toList ++ ['\x7d']) :=
        rfl
      rw [hx, hshape]
      unfold Env.get at htok ⊢
      cases he : envs1 "HUB_TOKEN".toList with
      | none => rw [he] at htok; exact absurd rfl htok
      | some t => rfl
    have hc : (buildCommandSpec (resolved envs1) (resolved envs1).imageURL w).Command =
        buildOptions (resolved envs1) (resolved envs1).imageURL ++ buildArgsSpec envs1 args ++
          [".".toList] := by
      have hne2 : (resolved envs1).BuildArgs ≠ [] := hne
      have hparse2 : w.unmarshal (resolved envs1).BuildArgs = .ok args := hparse
      simp only [buildCommandSpec, hne2, hparse2, ne_eq, not_false_eq_true, if_true]
      rfl
    rw [hc]
    obtain ⟨l1, l2, hl⟩ := List.append_of_mem hmem
    refine ⟨buildOptions (resolved envs1) (resolved envs1).imageURL ++ buildArgsSpec envs1 l1,
      buildArgsSpec envs1 l2 ++ [".".toList], ?_⟩
    rw [hl]
    simp only [buildArgsSpec, List.flatMap_append, List.flatMap_cons, hres, List.append_assoc,
      List.cons_append, List.nil_append]
  · obtain ⟨err, st, hrun, hcase⟩ := run_spec (resolved envs1) w
    refine ⟨err, st, hrun, ?_⟩
    rcases hcase with ⟨_, _, _, hr, ht⟩ | ⟨_, hr, ht, _⟩
    · simp [Proc.history, hr, ht, tracesOf]
    · have hh : st.history =
          (runUntilFail w (pipeline (resolved envs1) w) []).map Prod.fst := by
        simp [Proc.history, hr]
      refine ⟨by rw [hh]; exact ht, ?_⟩
      rw [hh]
      exact runUntilFail_initial w (pipeline (resolved envs1) w) []

/-- C10 amended, witnessed on two inputs with the tokens `secret` and `other`:
without build arguments only the login commands differ, and with the build
argument `T` of value `${HUB_TOKEN}` the build command carries `T=secret`. -/
theorem C10_token_in_login_and_build_args_witness :
    (gitPullCommand (resolved (envToken "secret" "")) =
        gitPullCommand (resolved (envToken "other" "")) ∧
      buildCommandSpec (resolved (envToken "secret" ""))
          (resolved (envToken "secret" "")).imageURL quietWorld =
        buildCommandSpec (resolved (envToken "other" ""))
          (resolved (envToken "other" "")).imageURL quietWorld) ∧
    ["--build-arg".toList, "T=secret".toList] <:+:
      (buildCommandSpec (resolved (envToken "secret" tokenText))
        (resolved (envToken "secret" tokenText)).imageURL tokenWorld).Command := by
  obtain ⟨a1, _, _, a4, _⟩ := C10_token_in_login_and_build_args
    (envToken "secret" "") (envToken "other" "")
    (resolved (envToken "secret" "")) (resolved (envToken "other" "")) quietWorld
    (by intro k hk; simp only [envToken, Env.ofList, hk, if_false])
    ((NewBuilder_ok_iff _ _).2 ⟨by decide, rfl⟩) ((NewBuilder_ok_iff _ _).2 ⟨by decide, rfl⟩)
  obtain ⟨_, _, _, _, _, c6, _⟩ := C10_token_in_login_and_build_args
    (envToken "secret" tokenText) (envToken "other" tokenText)
    (resolved (envToken "secret" tokenText)) (resolved (envToken "other" tokenText)) tokenWorld
    (by intro k hk; simp only [envToken, Env.ofList, hk, if_false])
    ((NewBuilder_ok_iff _ _).2 ⟨by decide, rfl⟩) ((NewBuilder_ok_iff _ _).2 ⟨by decide, rfl⟩)
  refine ⟨⟨a1, a4 (by intro args hargs; exact Except.noConfusion hargs)⟩, ?_⟩
  exact c6 [("T".toList, "$\x7bHUB_TOKEN\x7d".toList)] "T".toList (by decide) rfl (by decide)

/-! ## The inputs of the program -/

/-- C11, at the failing input: with `BUILD_ARGS` set in the process
environment, the mapping `main` builds has no key `BUILD_ARGS`, because
`envList` does not list that name, and the `Builder` constructed from it has an
empty `BuildArgs`. -/
theorem C11_build_args_not_passed :
    getenvWithArgs "BUILD_ARGS".toList = argsText ∧
    "BUILD_ARGS".toList ∉ envList ∧
    mainEnvs getenvWithArgs "BUILD_ARGS".toList = none ∧
    (NewBuilder (mainEnvs getenvWithArgs)).toOption.map (fun b => b.BuildArgs) = some [] := by
  decide

/-! ## Derived fields -/

/-- C12: the registry host of a constructed `Builder` is its `Image` when the
`Image` contains a dot, and `docker.io` otherwise. -/
theorem C12_hub_of_image (envs : Env) (b : Builder) (h : NewBuilder envs = .ok b) :
    ('.' ∈ b.Image → b.hub = b.Image) ∧ ('.' ∉ b.Image → b.hub = "docker.io".toList) := by
  obtain ⟨_, hb⟩ := (NewBuilder_ok_iff envs b).1 h
  subst hb
  have e3 : ".".toList = ['.'] := rfl
  have hhub : (resolved envs).hub =
      if Index (resolved envs).Image ['.'] > -1 then (resolved envs).Image
      else "docker.io".toList := rfl
  constructor
  · intro hm
    rw [hhub, if_pos ((Index_single_gt_iff '.' _).2 hm)]
  · intro hm
    rw [hhub, if_neg (fun e => hm ((Index_single_gt_iff '.' _).1 e))]

/-- C12, witnessed on the scenario of the specification. -/
theorem C12_hub_of_image_witness :
    scenarioBuilder.hub = scenarioBuilder.Image :=
  (C12_hub_of_image (envScenario "user".toList "secret".toList) scenarioBuilder
    ((NewBuilder_ok_iff _ _).2 ⟨by decide, rfl⟩)).1 (by decide)

/-- C13: for a constructed `Builder`, when `IMAGE` has no colon and `IMAGE_TAG`
is absent or empty the tag is `latest`; and whatever `IMAGE` is, a non-empty
`IMAGE_TAG` is the tag. -/
theorem C13_tag_default_and_override (envs : Env) (b : Builder)
    (h : NewBuilder envs = .ok b) :
    (':' ∉ envs.get "IMAGE".toList → envs.missing "IMAGE_TAG".toList →
      b.ImageTag = "latest".toList) ∧
    (envs.get "IMAGE_TAG".toList ≠ [] → b.ImageTag = envs.get "IMAGE_TAG".toList) := by
  obtain ⟨_, hb⟩ := (NewBuilder_ok_iff envs b).1 h
  subst hb
  have htag : (resolved envs).ImageTag =
      if envs.get "IMAGE_TAG".toList ≠ [] then envs.get "IMAGE_TAG".toList
      else "latest".toList := rfl
  constructor
  · intro _ hm
    rw [htag, if_neg (fun e => e ((Env.get_eq_nil_iff envs _).2 hm))]
  · intro hne
    rw [htag, if_pos hne]

/-- C13, witnessed on the scenario of the specification, whose `IMAGE_TAG` is
`v1`. -/
theorem C13_tag_default_and_override_witness :
    scenarioBuilder.ImageTag = (envScenario "user".toList "secret".toList).get "IMAGE_TAG".toList :=
  (C13_tag_default_and_override (envScenario "user".toList "secret".toList) scenarioBuilder
    ((NewBuilder_ok_iff _ _).2 ⟨by decide, rfl⟩)).2 (by decide)

/-- C14: for a constructed `Builder`, when `GIT_REF` is absent or empty the
revision is `master` of kind `branch`, whatever `GIT_TYPE` is; otherwise the
revision is `GIT_REF` and the kind is `GIT_TYPE` as given. -/
theorem C14_revision_default (envs : Env) (b : Builder) (h : NewBuilder envs = .ok b) :
    (envs.missing "GIT_REF".toList →
      b.GitRef = "master".toList ∧ b.GitType = "branch".toList) ∧
    (¬ envs.missing "GIT_REF".toList →
      b.GitRef = envs.get "GIT_REF".toList ∧ b.GitType = envs.get "GIT_TYPE".toList) := by
  obtain ⟨_, hb⟩ := (NewBuilder_ok_iff envs b).1 h
  subst hb
  have href : (resolved envs).GitRef =
      if envs.get "GIT_REF".toList = [] then "master".toList
      else envs.get "GIT_REF".toList := rfl
  have htype : (resolved envs).GitType =
      if envs.get "GIT_REF".toList = [] then "branch".toList
      else envs.get "GIT_TYPE".toList := rfl
  constructor
  · intro hm
    have he := (Env.get_eq_nil_iff envs _).2 hm
    rw [href, htype, if_pos he, if_pos he]
    exact ⟨rfl, rfl⟩
  · intro hm
    have he : ¬ envs.get "GIT_REF".toList = [] := fun e => hm ((Env.get_eq_nil_iff envs _).1 e)
    rw [href, htype, if_neg he, if_neg he]
    exact ⟨rfl, rfl⟩

/-- C14, witnessed on the scenario of the specification, which sets no
`GIT_REF`, and on an input that sets `GIT_REF=v1.0` and `GIT_TYPE=tag`. -/
theorem C14_revision_default_witness :
    (scenarioBuilder.GitRef = "master".toList ∧ scenarioBuilder.GitType = "branch".toList) ∧
    ((resolved (envKind "tag" "")).GitRef = (envKind "tag" "").get "GIT_REF".toList ∧
      (resolved (envKind "tag" "")).GitType = (envKind "tag" "").get "GIT_TYPE".toList) :=
  ⟨(C14_revision_default (envScenario "user".toList "secret".toList) scenarioBuilder
      ((NewBuilder_ok_iff _ _).2 ⟨by decide, rfl⟩)).1
      ((Env.get_eq_nil_iff _ _).1 (by decide)),
   (C14_revision_default (envKind "tag" "") (resolved (envKind "tag" ""))
      ((NewBuilder_ok_iff _ _).2 ⟨by decide, rfl⟩)).2
      (fun e => absurd ((Env.get_eq_nil_iff _ _).2 e) (by decide))⟩

theorem takeWhile_ne_not_mem (c : Char) :
    ∀ s : GoString, c ∉ s.takeWhile (fun d => d != c)
  | [] => by simp
  | d :: cs => by
    by_cases hd : d = c
    · simp [List.takeWhile_cons, hd]
    · have hb : (d != c) = true := by simp [hd]
      rw [List.takeWhile_cons, hb]
      simp only [if_true, List.mem_cons, not_or]
      exact ⟨fun e => hd e.symm, takeWhile_ne_not_mem c cs⟩

theorem takeWhile_ne_of_not_mem (c : Char) :
    ∀ s : GoString, c ∉ s → s.takeWhile (fun d => d != c) = s
  | [], _ => rfl
  | d :: cs, h => by
    have hd : d ≠ c := fun e => h (by simp [e])
    have hcs : c ∉ cs := fun e => h (List.mem_cons_of_mem _ e)
    have hb : (d != c) = true := by simp [hd]
    rw [List.takeWhile_cons, hb]
    simp [takeWhile_ne_of_not_mem c cs hcs]

theorem takeWhile_ne_split (c : Char) :
    ∀ s : GoString, c ∈ s → ∃ rest, s = s.takeWhile (fun d => d != c) ++ c :: rest
  | [], h => by simp at h
  | d :: cs, h => by
    by_cases hd : d = c
    · exact ⟨cs, by simp [List.takeWhile_cons, hd]⟩
    · have hcs : c ∈ cs := by
        rcases List.mem_cons.1 h with e | e
        · exact absurd e.symm hd
        · exact e
      obtain ⟨rest, hr⟩ := takeWhile_ne_split c cs hcs
      have hb : (d != c) = true := by simp [hd]
      refine ⟨rest, ?_⟩
      rw [List.takeWhile_cons, hb]
      simp only [if_true, List.cons_append]
      rw [← hr]

theorem imageOf_eq_takeWhile (image : GoString) :
    imageOf image = image.takeWhile (fun d => d != ':') := by
  have e1 : ":".toList = [':'] := rfl
  unfold imageOf
  rw [e1]
  by_cases h : ':' ∈ image
  · rw [if_pos ((Index_single_gt_iff ':' _).2 h)]
  · rw [if_neg (fun e => h ((Index_single_gt_iff ':' _).1 e)), takeWhile_ne_of_not_mem ':' _ h]

/-- C16: the `Image` of a constructed `Builder` is the part of `IMAGE` before
its first colon, all of `IMAGE` when it has none, and so holds no colon. -/
theorem C16_image_before_first_colon (envs : Env) (b : Builder)
    (h : NewBuilder envs = .ok b) :
    b.Image = (envs.get "IMAGE".toList).takeWhile (fun d => d != ':') ∧
    (':' ∈ envs.get "IMAGE".toList →
      ∃ rest, envs.get "IMAGE".toList = b.Image ++ ':' :: rest) ∧
    (':' ∉ envs.get "IMAGE".toList → b.Image = envs.get "IMAGE".toList) ∧
    ':' ∉ b.Image := by
  obtain ⟨_, hb⟩ := (NewBuilder_ok_iff envs b).1 h
  subst hb
  have himg : (resolved envs).Image =
      (envs.get "IMAGE".toList).takeWhile (fun d => d != ':') :=
    imageOf_eq_takeWhile _
  refine ⟨himg, ?_, ?_, ?_⟩
  · intro hm
    rw [himg]
    exact takeWhile_ne_split ':' _ hm
  · intro hm
    rw [himg]
    exact takeWhile_ne_of_not_mem ':' _ hm
  · rw [himg]
    exact takeWhile_ne_not_mem ':' _

/-- C16, witnessed on the input `IMAGE=registry.example.com/app:v2`. -/
theorem C16_image_before_first_colon_witness :
    (resolved envTagInImage).Image = "registry.example.com/app".toList ∧
    ':' ∉ (resolved envTagInImage).Image := by
  obtain ⟨h1, _, _, h4⟩ := C16_image_before_first_colon envTagInImage (resolved envTagInImage)
    ((NewBuilder_ok_iff _ _).2 ⟨by decide, rfl⟩)
  refine ⟨?_, h4⟩
  rw [h1]
  decide

/-- C18: the `ImageTag` of a constructed `Builder` is never empty. -/
theorem C18_image_tag_nonempty (envs : Env) (b : Builder) (h : NewBuilder envs = .ok b) :
    b.ImageTag ≠ [] := by
  obtain ⟨_, hb⟩ := (NewBuilder_ok_iff envs b).1 h
  subst hb
  have htag : (resolved envs).ImageTag =
      if envs.get "IMAGE_TAG".toList ≠ [] then envs.get "IMAGE_TAG".toList
      else "latest".toList := rfl
  rw [htag]
  split
  · assumption
  · decide

/-- C18, witnessed on the input `IMAGE=registry.example.com/app:v2`. -/
theorem C18_image_tag_nonempty_witness : (resolved envTagInImage).ImageTag ≠ [] :=
  C18_image_tag_nonempty envTagInImage (resolved envTagInImage)
    ((NewBuilder_ok_iff _ _).2 ⟨by decide, rfl⟩)

/-! ## The build command -/

/-- C15, refuted as stated: for the scenario `Builder` the build command has no
working directory of its own, so with the process in `/root/src` its context
`.` denotes `/root/src`, while the checkout directory is `/root/src/app`. -/
theorem C15_context_is_working_root :
    (scenarioBuilder.build scenarioBuilder.imageURL quietWorld {}).map
        (fun r => r.2.history.map (fun c => (c.WorkDir, c.contextDir baseSpace))) =
      some [([], "/root/src".toList)] ∧
    checkoutDir scenarioBuilder baseSpace = "/root/src/app".toList ∧
    "/root/src".toList ≠ "/root/src/app".toList := by
  decide

/-- C15, amended: the build command that `build` runs has an empty `WorkDir`
and the context argument `.`, so it runs in the working directory of the
process and its context denotes that directory, the working root (for
`/root/src`, the directory `/root/src` itself), whatever the project name. -/
theorem C15_build_context (b : Builder) (imageURL : GoString) (w : World) (st : Proc) :
    ∃ c st2,
      b.build imageURL w st = some ((w.exec st.history c).err, st2) ∧
      st2.runs = st.runs ++ [(c, (w.exec st.history c).err)] ∧
      c.WorkDir = [] ∧
      c.Command.getLast? = some ".".toList ∧
      (∀ cwd, c.dir cwd = cwd ∧ c.contextDir cwd = filepathJoin [cwd, ".".toList]) ∧
      c.contextDir baseSpace = baseSpace := by
  obtain ⟨st2, h1, h2, _⟩ := build_runs b imageURL w st
  have hlast : (buildCommandSpec b imageURL w).Command.getLast? = some ".".toList := by
    simp [buildCommandSpec]
  have hdir : ∀ cwd, (buildCommandSpec b imageURL w).dir cwd = cwd := by
    intro cwd
    simp [CMD.dir, buildCommandSpec]
  have hctx : ∀ cwd, (buildCommandSpec b imageURL w).contextDir cwd =
      filepathJoin [cwd, ".".toList] := by
    intro cwd
    unfold CMD.contextDir
    rw [hdir, hlast]
    rfl
  refine ⟨_, st2, h1, h2, rfl, hlast, fun cwd => ⟨hdir cwd, hctx cwd⟩, ?_⟩
  rw [hctx]
  decide

/-- C19: with an empty `BuildArgs`, the command `build` runs is `buildah bud`,
then `-f` with `projectName + DockerFilePath` when that text is non-empty, then
`--no-cache` when `NoCache` is set, then `-t`, the image reference and `.`; so
`-f` is present whenever the project name is non-empty. -/
theorem C19_build_command_shape (b : Builder) (imageURL : GoString) (w : World) (st : Proc)
    (hempty : b.BuildArgs = []) :
    ∃ command st2,
      b.build imageURL w st = some ((w.exec st.history { Command := command }).err, st2) ∧
      st2.runs = st.runs ++
        [({ Command := command }, (w.exec st.history { Command := command }).err)] ∧
      command =
        ["buildah".toList, "bud".toList] ++
        (if b.projectName ++ b.DockerFilePath ≠ [] then
          ["-f".toList, b.projectName ++ b.DockerFilePath] else []) ++
        (if b.NoCache = true then ["--no-cache".toList] else []) ++
        ["-t".toList, imageURL, ".".toList] ∧
      (b.projectName ≠ [] →
        ["-f".toList, b.projectName ++ b.DockerFilePath] <:+: command) := by
  have hc : buildCommandSpec b imageURL w =
      { Command :=
          ["buildah".toList, "bud".toList] ++
          (if b.projectName ++ b.DockerFilePath ≠ [] then
            ["-f".toList, b.projectName ++ b.DockerFilePath] else []) ++
          (if b.NoCache = true then ["--no-cache".toList] else []) ++
          ["-t".toList, imageURL, ".".toList] } := by
    unfold buildCommandSpec buildOptions
    by_cases hf : b.projectName ++ b.DockerFilePath = [] <;> by_cases hn : b.NoCache = true <;>
      simp [hempty, hf, hn]
  obtain ⟨st2, h1, h2, _⟩ := build_runs b imageURL w st
  rw [hc] at h1 h2
  refine ⟨_, st2, h1, h2, rfl, ?_⟩
  intro hp
  have hf : b.projectName ++ b.DockerFilePath ≠ [] := by
    intro e
    exact hp (List.append_eq_nil.1 e).1
  rw [if_pos hf]
  exact ⟨["buildah".toList, "bud".toList],
    (if b.NoCache = true then ["--no-cache".toList] else []) ++
      ["-t".toList, imageURL, ".".toList], by simp⟩

/-- C19, witnessed on the scenario `Builder`, which has no `DOCKERFILE_PATH`. -/
theorem C19_build_command_shape_witness :
    ∃ st2, scenarioBuilder.build "app:v1".toList quietWorld {} = some (none, st2) ∧
      st2.runs =
        [({ Command := ["buildah".toList, "bud".toList, "-f".toList, "app".toList,
            "-t".toList, "app:v1".toList, ".".toList] }, none)] := by
  obtain ⟨command, st2, h1, h2, h3, _⟩ :=
    C19_build_command_shape scenarioBuilder "app:v1".toList quietWorld {} (by decide)
  have hx : command = ["buildah".toList, "bud".toList, "-f".toList, "app".toList,
      "-t".toList, "app:v1".toList, ".".toList] := by
    rw [h3]
    decide
  subst hx
  exact ⟨st2, h1, h2⟩

/-! ## The revision kind -/

/-- C17, refuted as stated: two inputs with the same `GIT_REF` that differ only
in `GIT_TYPE`, and whose `BUILD_ARGS` binds `KIND` to `${GIT_TYPE}`, make the
pipeline issue different command sequences (the build commands differ). -/
theorem C17_kind_reaches_build_args :
    (∀ k, k ≠ "GIT_TYPE".toList → envKind "branch" kindText k = envKind "tag" kindText k) ∧
    (envKind "branch" kindText).get "GIT_REF".toList = "v1.0".toList ∧
    (envKind "tag" kindText).get "GIT_REF".toList = "v1.0".toList ∧
    (NewBuilder (envKind "branch" kindText)).toOption.bind
        (fun b => (b.run kindWorld {}).map (fun r => r.2.history)) ≠
      (NewBuilder (envKind "tag" kindText)).toOption.bind
        (fun b => (b.run kindWorld {}).map (fun r => r.2.history)) := by
  refine ⟨?_, by decide, by decide, by decide⟩
  intro k hk
  simp only [envKind, Env.ofList, hk, if_false]

/-- C17, amended: for two inputs with the same non-empty `GIT_REF` that differ
only in `GIT_TYPE`, the checkout command `git checkout <GitRef> --`, run in the
project directory, is the same; and the whole sequence of commands the pipeline
issues is the same provided no decoded build-argument value is the text
`${GIT_TYPE}`. -/
theorem C17_kind_not_used (envs1 envs2 : Env) (b1 b2 : Builder) (w : World)
    (hsame : ∀ k, k ≠ "GIT_TYPE".toList → envs1 k = envs2 k)
    (href : envs1.get "GIT_REF".toList ≠ [])
    (h1 : NewBuilder envs1 = .ok b1) (h2 : NewBuilder envs2 = .ok b2) :
    gitResetCommand b1 w.getwd = gitResetCommand b2 w.getwd ∧
    gitResetCommand b1 w.getwd =
      { Command := ["git".toList, "checkout".toList, envs1.get "GIT_REF".toList, "--".toList]
        WorkDir := filepathJoin [w.getwd, b1.projectName] } ∧
    ((∀ args, w.unmarshal (envs1.get "BUILD_ARGS".toList) = .ok args →
        ∀ kv ∈ args, kv.2 ≠ "$\x7bGIT_TYPE\x7d".toList) →
      pipeline b1 w = pipeline b2 w ∧
      ∃ err1 st1 err2 st2, b1.run w {} = some (err1, st1) ∧ b2.run w {} = some (err2, st2) ∧
        st1.runs = st2.runs) := by
  obtain ⟨_, hb1⟩ := (NewBuilder_ok_iff envs1 b1).1 h1
  obtain ⟨_, hb2⟩ := (NewBuilder_ok_iff envs2 b2).1 h2
  subst hb1 hb2
  have hget : ∀ k, k ≠ "GIT_TYPE".toList → envs1.get k = envs2.get k := by
    intro k hk
    unfold Env.get
    rw [hsame k hk]
  have g1 := hget "GIT_CLONE_URL".toList (by decide)
  have g2 := hget "GIT_REF".toList (by decide)
  have g3 := hget "IMAGE".toList (by decide)
  have g4 := hget "IMAGE_TAG".toList (by decide)
  have g5 := hget "DOCKERFILE_PATH".toList (by decide)
  have g6 := hget "BUILD_ARGS".toList (by decide)
  have g7 := hget "NO_CACHE".toList (by decide)
  have g8 := hget "HUB_USER".toList (by decide)
  have g9 := hget "HUB_TOKEN".toList (by decide)
  have hreset : gitResetCommand (resolved envs1) w.getwd =
      gitResetCommand (resolved envs2) w.getwd := by
    simp only [gitResetCommand, resolved, g1, g2]
  refine ⟨hreset, ?_, ?_⟩
  · simp only [gitResetCommand, resolved, href, if_false]
  · intro hargs
    have hbuild : buildCommandSpec (resolved envs1) (resolved envs1).imageURL w =
        buildCommandSpec (resolved envs2) (resolved envs2).imageURL w := by
      simp only [buildCommandSpec, buildOptions, Builder.imageURL, resolved, g1, g3, g4, g5, g6,
        g7]
      cases hu : w.unmarshal (envs2.get "BUILD_ARGS".toList) with
      | error e => rfl
      | ok args =>
        have hcongr : buildArgsSpec envs1 args = buildArgsSpec envs2 args := by
          apply buildArgsSpec_congr
          intro kv hkv
          apply resolveSpec_congr envs1 envs2 "GIT_TYPE".toList hsame
          rw [g6] at hargs
          exact hargs args hu kv hkv
        simp only [hcongr]
    have hpipe : pipeline (resolved envs1) w = pipeline (resolved envs2) w := by
      unfold pipeline
      rw [hbuild, hreset]
      simp only [gitPullCommand, loginCommand, pushCommand, Builder.imageURL, resolved, g1, g3,
        g4, g8, g9]
    refine ⟨hpipe, ?_⟩
    obtain ⟨err1, st1, r1, c1⟩ := run_spec (resolved envs1) w
    obtain ⟨err2, st2, r2, c2⟩ := run_spec (resolved envs2) w
    refine ⟨err1, st1, err2, st2, r1, r2, ?_⟩
    rcases c1 with ⟨e1, hch1, _, hr1, _⟩ | ⟨hch1, hr1, _, _⟩ <;>
      rcases c2 with ⟨e2, hch2, _, hr2, _⟩ | ⟨hch2, hr2, _, _⟩
    · rw [hr1, hr2]
    · rw [hch1] at hch2
      exact Option.noConfusion hch2
    · rw [hch1] at hch2
      exact Option.noConfusion hch2
    · rw [hr1, hr2, hpipe]

/-- C17 amended, witnessed on two inputs without build arguments, of kinds
`branch` and `tag`. -/
theorem C17_kind_not_used_witness :
    gitResetCommand (resolved (envKind "branch" "")) baseSpace =
      gitResetCommand (resolved (envKind "tag" "")) baseSpace ∧
    pipeline (resolved (envKind "branch" "")) quietWorld =
      pipeline (resolved (envKind "tag" "")) quietWorld := by
  obtain ⟨h1, _, h3⟩ := C17_kind_not_used (envKind "branch" "") (envKind "tag" "")
    (resolved (envKind "branch" "")) (resolved (envKind "tag" "")) quietWorld
    (by intro k hk; simp only [envKind, Env.ofList, hk, if_false]) (by decide)
    ((NewBuilder_ok_iff _ _).2 ⟨by decide, rfl⟩) ((NewBuilder_ok_iff _ _).2 ⟨by decide, rfl⟩)
  exact ⟨h1, (h3 (by intro args hargs; exact Except.noConfusion hargs)).1⟩

/-! ## Slices and indices stay in range -/

/-- C20: a build-argument value with the prefix `${` and the suffix `}` has
length at least 3 and its slice `v[2 : len(v)-1]` is in range, so the loop of
`build` never panics; in `NewBuilder`, `imageAndTag[1]` exists whenever `IMAGE`
has a colon and the slice `s[LastIndex(s, "/")+1:]` is in range for every `s`,
so `NewBuilder` never panics. -/
theorem C20_in_range (envs : Env) (v s : GoString) (args : List (GoString × GoString))
    (command : List GoString) :
    ((HasPrefix v "$\x7b".toList && HasSuffix v "\x7d".toList) = true →
      3 ≤ v.length ∧ ∃ envKey, slice v 2 ((v.length : Int) - 1) = some envKey) ∧
    (∃ out, buildArgsLoop envs args command = some out) ∧
    (Index (envs.get "IMAGE".toList) ":".toList > -1 →
      ∃ tag, (Split (envs.get "IMAGE".toList) ":".toList)[1]? = some tag) ∧
    (∃ name, sliceFrom s (LastIndex s "/".toList + 1) = some name) ∧
    NewBuilder envs ≠ .panic := by
  refine ⟨?_, ⟨_, buildArgsLoop_eq envs args command⟩, ?_, ⟨_, sliceFrom_LastIndex '/' s⟩, ?_⟩
  · intro hv
    obtain ⟨inner, rfl⟩ := (shape_iff v).1 hv
    refine ⟨?_, inner, slice_shape inner⟩
    simp only [List.length_cons, List.length_append, List.length_nil]
    omega
  · intro hi
    obtain ⟨tag, rest, hs⟩ := Split_single_of_mem ':' _ ((Index_single_gt_iff ':' _).1 hi)
    have e1 : ":".toList = [':'] := rfl
    rw [e1, hs]
    exact ⟨tag, by simp⟩
  · rw [NewBuilder_eq]
    split_ifs <;> exact fun e => Built.noConfusion e

/-- C20, witnessed on the value `${FOO}` and the input
`IMAGE=registry.example.com/app:v2`. -/
theorem C20_in_range_witness :
    (3 ≤ "$\x7bFOO\x7d".toList.length ∧
      ∃ envKey, slice "$\x7bFOO\x7d".toList 2 (("$\x7bFOO\x7d".toList.length : Int) - 1) =
        some envKey) ∧
    ∃ tag, (Split (envTagInImage.get "IMAGE".toList) ":".toList)[1]? = some tag :=
  ⟨(C20_in_range envTagInImage "$\x7bFOO\x7d".toList [] [] []).1 (by decide),
   (C20_in_range envTagInImage "$\x7bFOO\x7d".toList [] [] []).2.2.1 (by decide)⟩

end Buildah
